import Mathlib

/-!
Verification of the BMS point-name token classification pipeline.

This file gives a shallow embedding, in Lean 4, of the core of the
`bms-nlp` repository:

* `src/bms/tokenizer.py` — the label tokenizer (`tokenize`, `split_alpha_num`);
* `src/bms/generate_bms_vocab.py` — corpus statistics collection and
  vocabulary induction (`extract_vocab` and its helper classifiers);
* `src/bms/label_point_tokens.py` — the rule-based token labeler
  (`label_token`), the BIO encoder (`categories_to_bio`) and the
  structured aggregator (`build_structured`).

Strings are modelled as Lean `String`/`List Char`.  Character classes are
modelled on their ASCII behaviour: the regex class `[A-Za-z]` is
`Char.isAlpha`, `\d` and Python's `str.isdigit` are `Char.isDigit`
(ASCII `0`-`9`), and Python's `str.upper` is `Char.toUpper` mapped over
the string.  The Python regexes used by the code are anchored patterns
over disjoint character classes, so each is embedded as a
directly-written decidable predicate with the same matching semantics.
Scanning loops are written with an explicit fuel argument (initialised
to the input length) so that every definition is structurally recursive
and evaluates inside the kernel.
-/

namespace BMS

/-- Separator characters of `DELIM_RE = [ _\.\-\/:]+` in `tokenizer.py`:
space, underscore, period, hyphen, slash, colon. -/
def isDelim (c : Char) : Bool :=
  c = ' ' || c = '_' || c = '.' || c = '-' || c = '/' || c = ':'

/-- Python `str.strip()` whitespace: the characters Python's
`str.isspace` holds of, i.e. the ASCII whitespace controls, the file /
group / record / unit separators, NEL, NBSP, OGHAM SPACE MARK, the
EN-QUAD..HAIR-SPACE block, LINE and PARAGRAPH SEPARATOR, NARROW
NO-BREAK SPACE, MEDIUM MATHEMATICAL SPACE and IDEOGRAPHIC SPACE. -/
def pyIsSpace (c : Char) : Bool :=
  c = ' ' || c = '\t' || c = '\n' || c = '\x0b' || c = '\x0c' || c = '\r' ||
  c = '\x1c' || c = '\x1d' || c = '\x1e' || c = '\x1f' || c = '\x85' ||
  c = '\xa0' || c = '\u1680' || c = '\u2000' || c = '\u2001' || c = '\u2002' ||
  c = '\u2003' || c = '\u2004' || c = '\u2005' || c = '\u2006' ||
  c = '\u2007' || c = '\u2008' || c = '\u2009' || c = '\u200a' ||
  c = '\u2028' || c = '\u2029' || c = '\u202f' || c = '\u205f' || c = '\u3000'

/-- Python truthiness of `t.strip()`: the fragment has at least one
non-whitespace character. -/
def stripTruthy (l : List Char) : Bool :=
  l.any (fun c => !pyIsSpace c)

/-- Fuel-driven scanner for `DELIM_RE.split`: collects the maximal runs
of non-separator characters (the empty fragments a `re.split` would
yield between adjacent separators are never produced). -/
def delimSplitF : Nat → List Char → List (List Char)
  | _, [] => []
  | 0, _ => []
  | fuel + 1, c :: rest =>
    if isDelim c then delimSplitF fuel rest
    else (c :: rest.takeWhile (fun d => !isDelim d)) ::
      delimSplitF fuel (rest.dropWhile (fun d => !isDelim d))

/-- The fragments produced by `DELIM_RE.split(label)`, with the empty
fragments already gone: the maximal runs of non-separator characters.
(The source filters `DELIM_RE.split` output by `t.strip()`; the
whitespace-only filtering is applied separately below, mirroring
`[t for t in DELIM_RE.split(label) if t.strip()]`.) -/
def delimSplit (l : List Char) : List (List Char) :=
  delimSplitF l.length l

/-- Fuel-driven scanner for `re.findall(r"[A-Za-z]+|\d+|[^A-Za-z0-9]", t)`:
a maximal ASCII-letter run, else a maximal digit run, else a single
non-alphanumeric character, scanning left to right. -/
def findallPiecesF : Nat → List Char → List (List Char)
  | _, [] => []
  | 0, _ => []
  | fuel + 1, c :: rest =>
    if c.isAlpha then
      (c :: rest.takeWhile Char.isAlpha) ::
        findallPiecesF fuel (rest.dropWhile Char.isAlpha)
    else if c.isDigit then
      (c :: rest.takeWhile Char.isDigit) ::
        findallPiecesF fuel (rest.dropWhile Char.isDigit)
    else
      [c] :: findallPiecesF fuel rest

/-- The matches of `re.findall(r"[A-Za-z]+|\d+|[^A-Za-z0-9]", token)`. -/
def findallPieces (l : List Char) : List (List Char) :=
  findallPiecesF l.length l

/-- Embedding of `split_alpha_num` from `tokenizer.py`: regex findall
pieces, keeping only those with truthy `p.strip()`. -/
def split_alpha_num (t : List Char) : List (List Char) :=
  (findallPieces t).filter stripTruthy

/-- Embedding of `tokenize` from `tokenizer.py`, on character lists:
split on separator runs, keep fragments with truthy `t.strip()`, then
apply `split_alpha_num` to each fragment and concatenate. -/
def tokenizeL (label : List Char) : List (List Char) :=
  (((delimSplit label).filter stripTruthy).map split_alpha_num).flatten

/-- String-level `tokenize`. -/
def tokenize (label : String) : List String :=
  (tokenizeL label.data).map (fun t => String.mk t)

/-!
Regex patterns of `label_point_tokens.py`.  Each anchored pattern is
embedded as a decidable predicate on the token's character list with
the same matching semantics (the classes letter / digit / other are
disjoint, so greedy matching with backtracking is equivalent to the
maximal-run decompositions used here).  `$` is modelled as end of
string; tokens reaching these patterns never contain a newline.
-/

/-- An uppercase ASCII letter, the case-sensitive class `[A-Z]`. -/
def isUpperAlpha (c : Char) : Bool :=
  'A' ≤ c && c ≤ 'Z'

/-- Matches `[A-Z]?$` under `re.I`: the remainder is empty or a single
ASCII letter. -/
def optLetterEnd : List Char → Bool
  | [] => true
  | [c] => c.isAlpha
  | _ => false

/-- Matches `[A-Z]?$` case-sensitively: the remainder is empty or a
single uppercase ASCII letter. -/
def optUpperEnd : List Char → Bool
  | [] => true
  | [c] => isUpperAlpha c
  | _ => false

/-- Pattern `^FL?\d+$` with `re.I` (first FLOOR pattern). -/
def floorPat1 : List Char → Bool
  | [] => false
  | c :: rest =>
    (c == 'F' || c == 'f') &&
      (let rest2 := match rest with
        | d :: tail => if d == 'L' || d == 'l' then tail else rest
        | [] => rest
      !rest2.isEmpty && rest2.all Char.isDigit)

/-- Pattern `^Floor$` with `re.I` (second FLOOR pattern). -/
def floorPat2 (l : List Char) : Bool :=
  l.map Char.toUpper == ['F', 'L', 'O', 'O', 'R']

/-- Pattern `^RM\d+[A-Z]?$` with `re.I` (first ROOM pattern). -/
def roomPat1 : List Char → Bool
  | r :: m :: rest =>
    (r == 'R' || r == 'r') && (m == 'M' || m == 'm') &&
      !(rest.takeWhile Char.isDigit).isEmpty &&
      optLetterEnd (rest.dropWhile Char.isDigit)
  | _ => false

/-- Pattern `^\d{3,4}[A-Z]?$` with `re.I` (second ROOM pattern). -/
def roomPat2 (l : List Char) : Bool :=
  let ds := l.takeWhile Char.isDigit
  decide (3 ≤ ds.length) && decide (ds.length ≤ 4) &&
    optLetterEnd (l.dropWhile Char.isDigit)

/-- Pattern `^\d[A-Z]{1,3}\d{1,3}$` with `re.I` (third ROOM pattern). -/
def roomPat3 : List Char → Bool
  | d :: rest =>
    d.isDigit &&
      (let ls := rest.takeWhile Char.isAlpha
      let rest2 := rest.dropWhile Char.isAlpha
      decide (1 ≤ ls.length) && decide (ls.length ≤ 3) &&
        !rest2.isEmpty && rest2.all Char.isDigit && decide (rest2.length ≤ 3))
  | [] => false

/-- Pattern `^\d+$` (first EQUIP_ID pattern, case-sensitive). -/
def equipIdPat1 (l : List Char) : Bool :=
  !l.isEmpty && l.all Char.isDigit

/-- Pattern `^[A-Z]?\d{2,3}[A-Z]?$` (second EQUIP_ID pattern,
case-sensitive). -/
def equipIdPat2 (l : List Char) : Bool :=
  let l1 := match l with
    | c :: rest => if isUpperAlpha c then rest else l
    | [] => l
  let ds := l1.takeWhile Char.isDigit
  decide (2 ≤ ds.length) && decide (ds.length ≤ 3) &&
    optUpperEnd (l1.dropWhile Char.isDigit)

/-- Pattern `^BLDG\d+$` with `re.I` (BUILDING hint pattern). -/
def bldgPat : List Char → Bool
  | b :: l :: d :: g :: rest =>
    b.toUpper == 'B' && l.toUpper == 'L' && d.toUpper == 'D' &&
      g.toUpper == 'G' && !rest.isEmpty && rest.all Char.isDigit
  | _ => false

/-- The five loaded vocabularies of `load_vocabs` (sets of uppercase
strings, modelled as lists with membership lookup). -/
structure Vocabs where
  equip_vocab : List String
  subcomp_vocab : List String
  point_func_vocab : List String
  io_type_vocab : List String
  vendor_vocab : List String
deriving Repr, DecidableEq

/-- Python `str.upper`, on the ASCII model. -/
def pyUpper (s : String) : String :=
  String.mk (s.data.map Char.toUpper)

/-- Embedding of `label_token` from `label_point_tokens.py`: the strict
priority cascade assigning one category string to a token. -/
def label_token (token : String) (vocabs : Vocabs) : String :=
  let t := pyUpper token
  if vocabs.vendor_vocab.contains t then "VENDOR_TAG"
  else if vocabs.io_type_vocab.contains t then "IO_TYPE"
  else if vocabs.equip_vocab.contains t then "EQUIP"
  else if vocabs.subcomp_vocab.contains t then "SUBCOMP"
  else if vocabs.point_func_vocab.contains t then "POINT_FUNC"
  else if floorPat1 token.data || floorPat2 token.data then "FLOOR"
  else if roomPat1 token.data || roomPat2 token.data || roomPat3 token.data then "ZONE"
  else if equipIdPat1 token.data || equipIdPat2 token.data then "EQUIP_ID"
  else if bldgPat token.data then "BLDG"
  else "MISC"

/-- Embedding of `weak_label_tokens`. -/
def weak_label_tokens (tokens : List String) (vocabs : Vocabs) : List String :=
  tokens.map (fun tok => label_token tok vocabs)

/-- Loop body of `categories_to_bio`, carrying `prev_cat`. -/
def bioGo (prev : Option String) : List (Option String) → List String
  | [] => []
  | c :: rest =>
    match c with
    | none => "O" :: bioGo none rest
    | some cat =>
      if cat = "MISC" then "O" :: bioGo none rest
      else if prev = some cat then ("I-" ++ cat) :: bioGo (some cat) rest
      else ("B-" ++ cat) :: bioGo (some cat) rest

/-- Embedding of `categories_to_bio` from `label_point_tokens.py`. -/
def categories_to_bio (categories : List (Option String)) : List String :=
  bioGo none categories

/-- The structured summary record of `build_structured`. -/
structure Structured where
  bldg : Option String
  floor : Option String
  zone : Option String
  equip : Option String
  equip_id : Option String
  subcomp : Option String
  point_func : Option String
  io_type : Option String
  vendor : Option String
deriving Repr, DecidableEq

/-- Loop state of `build_structured`: the scalar fields plus the
accumulated `zone_tokens`. -/
structure AggState where
  bldg : Option String
  floor : Option String
  zone_tokens : List String
  equip : Option String
  equip_id : Option String
  subcomp : Option String
  point_func : Option String
  io_type : Option String
  vendor : Option String
deriving Repr, DecidableEq

/-- The all-empty initial state of the `build_structured` loop. -/
def initAggState : AggState :=
  ⟨none, none, [], none, none, none, none, none, none⟩

/-- One iteration of the `for tok, c in zip(tokens, cats)` loop of
`build_structured`. -/
def aggStep (s : AggState) (p : String × String) : AggState :=
  let tok := p.1
  let c := p.2
  if c = "BLDG" ∧ s.bldg = none then { s with bldg := some tok }
  else if c = "FLOOR" ∧ s.floor = none then { s with floor := some tok }
  else if c = "ZONE" then { s with zone_tokens := s.zone_tokens ++ [tok] }
  else if c = "EQUIP" ∧ s.equip = none then { s with equip := some tok }
  else if c = "EQUIP_ID" ∧ s.equip_id = none then { s with equip_id := some tok }
  else if c = "SUBCOMP" then { s with subcomp := some tok }
  else if c = "POINT_FUNC" then { s with point_func := some tok }
  else if c = "IO_TYPE" then { s with io_type := some tok }
  else if c = "VENDOR_TAG" then { s with vendor := some tok }
  else s

/-- Embedding of `build_structured` from `label_point_tokens.py`. -/
def build_structured (tokens : List String) (cats : List String) : Structured :=
  let s := (tokens.zip cats).foldl aggStep initAggState
  { bldg := s.bldg
    floor := s.floor
    zone := if s.zone_tokens = [] then none
      else some (String.intercalate " " s.zone_tokens)
    equip := s.equip
    equip_id := s.equip_id
    subcomp := s.subcomp
    point_func := s.point_func
    io_type := s.io_type
    vendor := s.vendor }

/-- An input record, as consumed by `annotate_record`. -/
structure RawRecord where
  point_label : String
  building_id : Option String
  source_file : Option String
  point_label_col : Option String
deriving Repr, DecidableEq

/-- The annotated output record of `annotate_record`. -/
structure AnnotatedRecord where
  point_label : String
  tokens : List String
  token_labels : List String
  bio_tags : List String
  building_id : Option String
  source_file : Option String
  point_label_col : Option String
  label_source : String
  structured : Structured
deriving Repr, DecidableEq

/-- Embedding of `annotate_record` from `label_point_tokens.py`. -/
def annotate_record (raw : RawRecord) (vocabs : Vocabs) : AnnotatedRecord :=
  let tokens := tokenize raw.point_label
  let token_labels := weak_label_tokens tokens vocabs
  { point_label := raw.point_label
    tokens := tokens
    token_labels := token_labels
    bio_tags := categories_to_bio (token_labels.map some)
    building_id := raw.building_id
    source_file := raw.source_file
    point_label_col := raw.point_label_col
    label_source := "rule"
    structured := build_structured tokens token_labels }

/-!
Embedding of `generate_bms_vocab.py`: thresholds, seed sets, the corpus
statistics fold of `extract_vocab`, the heuristic per-token classifiers,
and the scoring / trimming stage.  A corpus is a list of
`(point_label, building_id)` pairs.  The Python `Counter` / `dict` /
`set` state is modelled by total functions `String -> Nat` /
`String -> List String` together with explicit first-insertion-order key
lists (`tokenOrder`, `buildingOrder`), mirroring the deterministic
insertion order of Python dictionaries.  Python's stable `sorted` with
`reverse=True` is modelled by a stable descending insertion sort, and
the plain `sorted` on (distinct-element) sets by an ascending insertion
sort on strings.
-/

/-- Threshold `MIN_GLOBAL_FREQ = 10`. -/
def MIN_GLOBAL_FREQ : Nat := 10

/-- Threshold `MIN_BUILDINGS = 2`. -/
def MIN_BUILDINGS : Nat := 2

/-- Threshold `MIN_EQUIP_NUMID_BIGRAM = 5`. -/
def MIN_EQUIP_NUMID_BIGRAM : Nat := 5

/-- Seed equipment tokens `SEED_EQUIP`. -/
def SEED_EQUIP : List String :=
  ["AHU", "VAV", "FCU", "CRAC", "MAU", "EF", "SF", "HWP", "PUMP", "CHW",
    "HHW", "HX", "FAN", "FANCOIL"]

/-- Seed subcomponent tokens `SEED_SUBCOMP`. -/
def SEED_SUBCOMP : List String :=
  ["SAT", "DAT", "RAT", "MAT", "OAT", "TEMP", "FLOW", "POS", "SPEED",
    "PRESS", "PRESSURE", "STATIC"]

/-- Seed point-function tokens `SEED_POINT_FUNC`. -/
def SEED_POINT_FUNC : List String :=
  ["CMD", "COMD", "STATUS", "START", "STOP", "RUN", "ENABLE", "ALARM",
    "ALM", "MODE", "PROOF", "DAY", "NIGHT"]

/-- The fixed closed I/O-type set `KNOWN_IO` of the source. -/
def KNOWN_IO_TYPES : List String :=
  ["AI", "AO", "DI", "DO", "AV", "BV", "UI", "UO"]

/-- Vendor hint set `KNOWN_VENDOR_HINTS`. -/
def KNOWN_VENDOR_HINTS : List String :=
  ["JCI", "SIEMENS", "BAC", "BACNET", "HONEYWELL", "TRANE", "N2", "SCHNEIDER"]

/-- Equipment stopword set `EQUIP_STOPWORDS`. -/
def EQUIP_STOPWORDS : List String :=
  ["AIR", "FLOW", "SUP", "SUPPLY", "RET", "RETURN", "ZONE", "HOT", "COLD",
    "HEAT", "COOL", "TEMP", "MODE", "FILTER", "ALARM", "ALM", "RUN",
    "START", "STOP", "DAY", "NIGHT"]

/-- Equipment blacklist `EQUIP_BLACKLIST` (empty in the source). -/
def EQUIP_BLACKLIST : List String := []

/-- Python `str.isdigit` on the ASCII model: non-empty and all decimal
digits. -/
def pyIsDigitStr (s : String) : Bool :=
  !s.data.isEmpty && s.data.all Char.isDigit

/-- Python `str.isalpha` on the ASCII model: non-empty and all ASCII
letters. -/
def pyIsAlphaStr (s : String) : Bool :=
  !s.data.isEmpty && s.data.all Char.isAlpha

/-- Python `str.isupper` on the ASCII model: at least one cased
character and no lowercase character. -/
def pyIsUpperStr (s : String) : Bool :=
  s.data.any (fun c => c.isUpper || c.isLower) && !s.data.any Char.isLower

/-- The statistics state accumulated by the reading loop of
`extract_vocab`: `token_counter`, `token_buildings`,
`token_numid_bigram`, plus the key insertion orders standing for
`token_counter.items()` order and `per_building_counter` key count. -/
structure VocabStats where
  freq : String → Nat
  buildings : String → List String
  numid : String → Nat
  tokenOrder : List String
  buildingOrder : List String

/-- Bump a counter at one key (`counter[t] += 1`). -/
def bumpAt (f : String → Nat) (t : String) : String → Nat :=
  fun x => if x = t then f x + 1 else f x

/-- `token_counter.update(toks_upper)`: one increment per occurrence. -/
def updFreq (f : String → Nat) (toks : List String) : String → Nat :=
  toks.foldl bumpAt f

/-- Record the keys of a counter update in first-insertion order. -/
def updOrder (order : List String) (toks : List String) : List String :=
  toks.foldl (fun o t => if t ∈ o then o else o ++ [t]) order

/-- `for t in set(toks_upper): token_buildings[t].add(bldg)`. -/
def updBuildings (b : String → List String) (toks : List String)
    (bldg : String) : String → List String :=
  fun x => if x ∈ toks then (if bldg ∈ b x then b x else b x ++ [bldg]) else b x

/-- The bigram loop: for each adjacent pair of original-case tokens
whose second member `isdigit`, bump the counter at the upper-cased
first member. -/
def updNumid (n : String → Nat) (toks : List String) : String → Nat :=
  (toks.zip toks.tail).foldl
    (fun m p => if pyIsDigitStr p.2 then bumpAt m (pyUpper p.1) else m) n

/-- One iteration of the reading loop of `extract_vocab` for a record
`(point_label, building_id)`; records that tokenize to nothing are
skipped (`if not toks: continue`). -/
def statsStep (st : VocabStats) (rec : String × String) : VocabStats :=
  let toks := tokenize rec.1
  if toks = [] then st
  else
    let toksUpper := toks.map pyUpper
    { freq := updFreq st.freq toksUpper
      buildings := updBuildings st.buildings toksUpper rec.2
      numid := updNumid st.numid toks
      tokenOrder := updOrder st.tokenOrder toksUpper
      buildingOrder :=
        if rec.2 ∈ st.buildingOrder then st.buildingOrder
        else st.buildingOrder ++ [rec.2] }

/-- The empty statistics state. -/
def initStats : VocabStats :=
  ⟨fun _ => 0, fun _ => [], fun _ => 0, [], []⟩

/-- The whole reading loop of `extract_vocab` over a corpus. -/
def collectStats (corpus : List (String × String)) : VocabStats :=
  corpus.foldl statsStep initStats

/-- Embedding of `is_io_type`. -/
def is_io_type (tok : String) : Bool :=
  KNOWN_IO_TYPES.contains tok

/-- Embedding of `is_vendor`: hint-set membership, or a `NET` suffix
with total length at most 8. -/
def is_vendor (tok : String) : Bool :=
  KNOWN_VENDOR_HINTS.contains tok ||
    (List.isSuffixOf "NET".data tok.data && decide (tok.length ≤ 8))

/-- Embedding of `passes_global_thresholds`. -/
def passes_global_thresholds (tok : String) (st : VocabStats) : Bool :=
  decide (MIN_GLOBAL_FREQ ≤ st.freq tok) &&
    decide (MIN_BUILDINGS ≤ (st.buildings tok).length)

/-- Embedding of `likely_equip` from `generate_bms_vocab.py`, with the
same early-return structure (including the final numeric-succession
check whose two branches both return `True`). -/
def likely_equip (tok : String) (st : VocabStats) : Bool :=
  if EQUIP_BLACKLIST.contains tok then false
  else if SEED_EQUIP.contains tok && decide (0 < st.freq tok) then true
  else if !passes_global_thresholds tok st then false
  else if !pyIsAlphaStr tok then false
  else if !pyIsUpperStr tok then false
  else if !(decide (2 ≤ tok.length) && decide (tok.length ≤ 6)) then false
  else if EQUIP_STOPWORDS.contains tok then false
  else if decide (MIN_EQUIP_NUMID_BIGRAM ≤ st.numid tok) then true
  else true

/-- Substring containment, Python's `k in t` for strings. -/
def isSubstringOf (pat : List Char) : List Char → Bool
  | [] => pat.isEmpty
  | c :: rest => List.isPrefixOf pat (c :: rest) || isSubstringOf pat rest

/-- The `measurement_keywords` list of `likely_subcomponent`. -/
def measurement_keywords : List String :=
  ["TEMP", "FLOW", "PRESS", "HUM", "SPEED", "POS", "LEVEL", "STATIC"]

/-- Embedding of `likely_subcomponent`. -/
def likely_subcomponent (tok : String) (st : VocabStats) : Bool :=
  if SEED_SUBCOMP.contains tok && decide (0 < st.freq tok) then true
  else if !passes_global_thresholds tok st then false
  else if measurement_keywords.any (fun k => isSubstringOf k.data tok.data) then true
  else if pyIsUpperStr tok && decide (tok.length ≤ 4) &&
      List.isSuffixOf "T".data tok.data then true
  else false

/-- The `fn_keywords` list of `likely_point_func`. -/
def fn_keywords : List String :=
  ["CMD", "COMD", "STAT", "STATUS", "START", "STOP", "ENABLE", "ENBL",
    "ALARM", "ALM", "MODE", "PROOF", "RUN"]

/-- Embedding of `likely_point_func`. -/
def likely_point_func (tok : String) (st : VocabStats) : Bool :=
  if SEED_POINT_FUNC.contains tok && decide (0 < st.freq tok) then true
  else if !passes_global_thresholds tok st then false
  else if fn_keywords.any
      (fun k => tok == k || List.isPrefixOf k.data tok.data) then true
  else if tok == "DAY" || tok == "NIGHT" then true
  else false

/-- The stats dictionary attached to a candidate token. -/
structure CandStats where
  freq : Nat
  buildings : Nat
  numid_bigrams : Nat
deriving Repr, DecidableEq

/-- The candidate stats of a token (`numid_bigrams` read with
`.get(t, 0)`). -/
def candStatsOf (st : VocabStats) (tok : String) : CandStats :=
  ⟨st.freq tok, (st.buildings tok).length, st.numid tok⟩

/-- Embedding of `score_equip`: `freq + 2 * buildings + 3 * numid_bigrams`. -/
def score_equip (s : CandStats) : Nat :=
  s.freq + 2 * s.buildings + 3 * s.numid_bigrams

/-- Embedding of `score_subcomp`: `freq + 2 * buildings`. -/
def score_subcomp (s : CandStats) : Nat :=
  s.freq + 2 * s.buildings

/-- Embedding of `score_pointfunc`: `freq + buildings`. -/
def score_pointfunc (s : CandStats) : Nat :=
  s.freq + s.buildings

/-- The bucket a distinct token ends in, per the first-match-wins
`if`/`continue` chain of the candidate-collection loop of
`extract_vocab`. -/
inductive Bucket
  | io
  | vendor
  | pointfunc
  | subcomp
  | equip
  | unclassified
deriving Repr, DecidableEq

/-- The candidate-collection chain of `extract_vocab`, for one distinct
(uppercase) token of the frequency table. -/
def classifyToken (st : VocabStats) (tok : String) : Bucket :=
  if is_io_type tok then Bucket.io
  else if is_vendor tok then Bucket.vendor
  else if likely_point_func tok st then Bucket.pointfunc
  else if likely_subcomponent tok st then Bucket.subcomp
  else if likely_equip tok st then Bucket.equip
  else Bucket.unclassified

/-- Stable insertion of `a` into a descending-by-key list: `a` goes
after every earlier element whose key is at least `key a`. -/
def insertByKeyDesc (key : α → Nat) (a : α) : List α → List α
  | [] => [a]
  | b :: rest =>
    if key b < key a then a :: b :: rest else b :: insertByKeyDesc key a rest

/-- Python's stable `sorted(..., key=..., reverse=True)`: descending by
key, ties kept in input order. -/
def sortByKeyDesc (key : α → Nat) (l : List α) : List α :=
  l.foldl (fun acc a => insertByKeyDesc key a acc) []

/-- Stable ascending insertion of a string into a sorted list. -/
def insertAsc (a : String) : List String → List String
  | [] => [a]
  | b :: rest => if a < b then a :: b :: rest else b :: insertAsc a rest

/-- Python's `sorted` on a list of strings (ascending lexicographic by
code point). -/
def pySorted (l : List String) : List String :=
  l.foldl (fun acc a => insertAsc a acc) []

/-- Trimming bound `MAX_EQUIP = 150`. -/
def MAX_EQUIP : Nat := 150

/-- Trimming bound `MIN_SUBCOMP_SCORE = 15`. -/
def MIN_SUBCOMP_SCORE : Nat := 15

/-- Trimming bound `MIN_POINTFUNC_SCORE = 5`. -/
def MIN_POINTFUNC_SCORE : Nat := 5

/-- The vocabulary bundle written by `extract_vocab` (sorted lists plus
the frequency table and summary counts). -/
structure VocabBundle where
  equip_vocab : List String
  subcomp_vocab : List String
  point_func_vocab : List String
  io_type_vocab : List String
  vendor_vocab : List String
  frequency : String → Nat
  num_tokens : Nat
  num_buildings : Nat

/-- Embedding of `extract_vocab` from `generate_bms_vocab.py`:
statistics collection, the candidate-collection chain over the distinct
tokens in frequency-table order, score-based trimming, and sorting of
the output lists. -/
def extract_vocab (corpus : List (String × String)) : VocabBundle :=
  let st := collectStats corpus
  let io_vocab := st.tokenOrder.filter (fun t => classifyToken st t == Bucket.io)
  let vendor_vocab := st.tokenOrder.filter (fun t => classifyToken st t == Bucket.vendor)
  let pointfunc_candidates :=
    st.tokenOrder.filter (fun t => classifyToken st t == Bucket.pointfunc)
  let subcomp_candidates :=
    st.tokenOrder.filter (fun t => classifyToken st t == Bucket.subcomp)
  let equip_candidates :=
    st.tokenOrder.filter (fun t => classifyToken st t == Bucket.equip)
  let sorted_equip :=
    sortByKeyDesc (fun t => score_equip (candStatsOf st t)) equip_candidates
  let equip_vocab := sorted_equip.take MAX_EQUIP
  let subcomp_vocab := subcomp_candidates.filter
    (fun t => decide (MIN_SUBCOMP_SCORE ≤ score_subcomp (candStatsOf st t)))
  let point_func_vocab := pointfunc_candidates.filter
    (fun t => decide (MIN_POINTFUNC_SCORE ≤ score_pointfunc (candStatsOf st t)))
  { equip_vocab := pySorted equip_vocab
    subcomp_vocab := pySorted subcomp_vocab
    point_func_vocab := pySorted point_func_vocab
    io_type_vocab := pySorted io_vocab
    vendor_vocab := pySorted vendor_vocab
    frequency := st.freq
    num_tokens := st.tokenOrder.length
    num_buildings := st.buildingOrder.length }

/-- The C2 test corpus: 12 copies of one label, 6 per building. -/
def corpusC2 : List (String × String) :=
  (List.replicate 6 ("SIEMENS_AHU-01.SAT_AI_CMD", "bldgA")) ++
    (List.replicate 6 ("SIEMENS_AHU-01.SAT_AI_CMD", "bldgB"))

/-- The effective category of an optional category: `MISC` and absence
collapse to none, anything else stands. -/
def effCat : Option String → Option String
  | none => none
  | some c => if c = "MISC" then none else some c

/-- A concrete statistics state for the C5 witness: every token seen 12
times in two buildings, never followed by a numeric token. -/
def stC5 : VocabStats :=
  ⟨fun _ => 12, fun _ => ["bldgA", "bldgB"], fun _ => 0, [], []⟩

/-!
Helper lemmas: character classes and list scanners.
-/

/-- The length of `dropWhile` output never exceeds the input length. -/
theorem length_dropWhile_le (p : α → Bool) (l : List α) :
    (l.dropWhile p).length ≤ l.length := by
  induction l with
  | nil => simp [List.dropWhile]
  | cons a l ih =>
    simp only [List.dropWhile]
    split
    · exact Nat.le_trans ih (Nat.le_succ _)
    · exact Nat.le_refl _

example : tokenize "AHU-03.SAT_AI" = ["AHU", "03", "SAT", "AI"] := by decide
example : tokenize "RM1203E" = ["RM", "1203", "E"] := by decide
example : tokenize "" = [] := by decide
example : tokenize " _.-/:" = [] := by decide
example : tokenize "A\tB" = ["A", "B"] := by decide
example : tokenize "\t" = [] := by decide
example : tokenize "SIEMENS_AHU-01.SAT_AI_CMD" =
    ["SIEMENS", "AHU", "01", "SAT", "AI", "CMD"] := by decide

example :
    let v : Vocabs := ⟨["AHU"], ["SAT"], [], ["AI"], []⟩
    weak_label_tokens (tokenize "AHU-03.SAT_AI") v =
      ["EQUIP", "EQUIP_ID", "SUBCOMP", "IO_TYPE"] := by decide

example :
    let v : Vocabs := ⟨["AHU"], ["SAT"], [], ["AI"], []⟩
    categories_to_bio ((weak_label_tokens (tokenize "AHU-03.SAT_AI") v).map some) =
      ["B-EQUIP", "B-EQUIP_ID", "B-SUBCOMP", "B-IO_TYPE"] := by decide

example : label_token "123" ⟨[], [], [], [], []⟩ = "ZONE" := by decide
example : label_token "12" ⟨[], [], [], [], []⟩ = "EQUIP_ID" := by decide
example : label_token "12345" ⟨[], [], [], [], []⟩ = "EQUIP_ID" := by decide
example : label_token "BLDG7" ⟨[], [], [], [], []⟩ = "BLDG" := by decide
example : label_token "FL03" ⟨[], [], [], [], []⟩ = "FLOOR" := by decide
example : label_token "RM1203E" ⟨[], [], [], [], []⟩ = "ZONE" := by decide
example : label_token "2SE21" ⟨[], [], [], [], []⟩ = "ZONE" := by decide
example :
    build_structured ["BLDG1", "FL03", "RM1203E", "AHU", "03", "SAT", "AI", "CMD"]
      ["BLDG", "FLOOR", "ZONE", "EQUIP", "EQUIP_ID", "SUBCOMP", "IO_TYPE", "POINT_FUNC"] =
    ⟨some "BLDG1", some "FL03", some "RM1203E", some "AHU", some "03",
      some "SAT", some "CMD", some "AI", none⟩ := by decide

set_option maxRecDepth 40000

example : (extract_vocab corpusC2).io_type_vocab = ["AI"] := by decide
example : (extract_vocab corpusC2).vendor_vocab = ["SIEMENS"] := by decide
example : (extract_vocab corpusC2).equip_vocab = ["AHU"] := by decide
example : (extract_vocab corpusC2).subcomp_vocab = ["SAT"] := by decide
example : (extract_vocab corpusC2).point_func_vocab = ["CMD"] := by decide


/-- A digit character is not an ASCII letter. -/
theorem char_digit_not_alpha {c : Char} (h : c.isDigit = true) :
    c.isAlpha = false := by
  simp only [Char.isDigit, Char.isAlpha, Char.isUpper, Char.isLower] at *
  revert h
  rcases c with ⟨⟨⟨v, hv⟩⟩, hvalid⟩
  simp [UInt32.le_def, BitVec.le_def]
  omega

/-- An ASCII letter is not a digit. -/
theorem char_alpha_not_digit {c : Char} (h : c.isAlpha = true) :
    c.isDigit = false := by
  cases hd : c.isDigit
  · rfl
  · rw [char_digit_not_alpha hd] at h
    cases h

/-- A digit character is not lowercase. -/
theorem char_digit_not_lower {c : Char} (h : c.isDigit = true) :
    c.isLower = false := by
  simp only [Char.isDigit, Char.isLower] at *
  revert h
  rcases c with ⟨⟨⟨v, hv⟩⟩, hvalid⟩
  simp [UInt32.le_def, BitVec.le_def]
  omega

/-- `Char.toUpper` fixes digit characters. -/
theorem char_digit_toUpper {c : Char} (h : c.isDigit = true) :
    c.toUpper = c := by
  rw [Char.toUpper, if_neg]
  rintro ⟨h1, -⟩
  revert h h1
  rcases c with ⟨⟨⟨v, hv⟩⟩, hvalid⟩
  simp [Char.isDigit, Char.toNat, UInt32.toNat, UInt32.le_def, BitVec.le_def]
  omega

/-- Two characters of complementary classes are `==`-distinct. -/
theorem char_beq_false_of_class {c d : Char} (p : Char → Bool)
    (h : p c = true) (hd : p d = false) : (c == d) = false := by
  by_cases hcd : c = d
  · subst hcd
    rw [h] at hd
    cases hd
  · simp [hcd]

/-- Two characters of complementary classes are propositionally
distinct (decided form). -/
theorem char_decide_eq_false_of_class {c d : Char} (p : Char → Bool)
    (h : p c = true) (hd : p d = false) : decide (c = d) = false := by
  by_cases hcd : c = d
  · subst hcd
    rw [h] at hd
    cases hd
  · simp [hcd]

/-- A separator character is neither a letter nor a digit. -/
theorem delim_not_alnum {c : Char} (h : isDelim c = true) :
    c.isAlpha = false ∧ c.isDigit = false := by
  simp only [isDelim, Bool.or_eq_true, decide_eq_true_eq] at h
  rcases h with ((((rfl | rfl) | rfl) | rfl) | rfl) | rfl <;>
    exact ⟨by decide, by decide⟩

/-- A Python whitespace character is neither a letter nor a digit. -/
theorem space_not_alnum {c : Char} (h : pyIsSpace c = true) :
    c.isAlpha = false ∧ c.isDigit = false := by
  simp only [pyIsSpace, Bool.or_eq_true, decide_eq_true_eq] at h
  rcases h with ((((((((((((((((((((((((((((rfl | rfl) | rfl) | rfl) | rfl) | rfl) | rfl) | rfl) | rfl) | rfl) | rfl) | rfl) | rfl) | rfl) | rfl) | rfl) | rfl) | rfl) | rfl) | rfl) | rfl) | rfl) | rfl) | rfl) | rfl) | rfl) | rfl) | rfl) | rfl) <;> exact ⟨by decide, by decide⟩

/-- Letters and digits are not separator characters. -/
theorem alnum_not_delim {c : Char} (h : c.isAlpha = true ∨ c.isDigit = true) :
    isDelim c = false := by
  cases hd : isDelim c
  · rfl
  · rcases delim_not_alnum hd with ⟨h1, h2⟩
    rcases h with h | h
    · rw [h1] at h
      cases h
    · rw [h2] at h
      cases h

/-- Letters and digits are not Python whitespace. -/
theorem alnum_not_space {c : Char} (h : c.isAlpha = true ∨ c.isDigit = true) :
    pyIsSpace c = false := by
  cases hd : pyIsSpace c
  · rfl
  · rcases space_not_alnum hd with ⟨h1, h2⟩
    rcases h with h | h
    · rw [h1] at h
      cases h
    · rw [h2] at h
      cases h

/-- `takeWhile` returns the whole list when every element satisfies the
predicate. -/
theorem takeWhile_eq_self_of_all {p : α → Bool} {l : List α}
    (h : ∀ c ∈ l, p c = true) : l.takeWhile p = l := by
  induction l with
  | nil => rfl
  | cons a l ih =>
    have ha := h a (List.mem_cons_self a l)
    simp [List.takeWhile_cons, ha,
      ih (fun c hc => h c (List.mem_cons_of_mem a hc))]

/-- `dropWhile` returns nothing when every element satisfies the
predicate. -/
theorem dropWhile_eq_nil_of_all {p : α → Bool} {l : List α}
    (h : ∀ c ∈ l, p c = true) : l.dropWhile p = [] := by
  induction l with
  | nil => rfl
  | cons a l ih =>
    have ha := h a (List.mem_cons_self a l)
    simp [List.dropWhile_cons, ha,
      ih (fun c hc => h c (List.mem_cons_of_mem a hc))]

/-- `takeWhile` returns nothing when the head fails the predicate. -/
theorem takeWhile_eq_nil_of_head {p : α → Bool} {a : α} {l : List α}
    (h : p a = false) : (a :: l).takeWhile p = [] := by
  simp [List.takeWhile_cons, h]

/-- `dropWhile` keeps the whole list when the head fails the
predicate. -/
theorem dropWhile_eq_self_of_head {p : α → Bool} {a : α} {l : List α}
    (h : p a = false) : (a :: l).dropWhile p = a :: l := by
  simp [List.dropWhile_cons, h]

/-- Every fragment of the separator split is nonempty, separator-free,
and drawn from the input characters. -/
theorem delimSplitF_fragments (fuel : Nat) :
    ∀ l : List Char, l.length ≤ fuel →
      ∀ f ∈ delimSplitF fuel l, f ≠ [] ∧ ∀ c ∈ f, isDelim c = false ∧ c ∈ l := by
  induction fuel with
  | zero =>
    intro l hl f hf
    rcases l with _ | ⟨c, rest⟩
    · simp [delimSplitF] at hf
    · simp at hl
  | succ fuel ih =>
    intro l hl f hf
    rcases l with _ | ⟨c, rest⟩
    · simp [delimSplitF] at hf
    · simp only [delimSplitF] at hf
      have hrest : rest.length ≤ fuel := by
        simpa using Nat.le_of_succ_le_succ hl
      by_cases hc : isDelim c = true
      · rw [if_pos hc] at hf
        obtain ⟨hne, hmem⟩ := ih rest hrest f hf
        exact ⟨hne, fun d hd =>
          ⟨(hmem d hd).1, List.mem_cons_of_mem c (hmem d hd).2⟩⟩
      · rw [if_neg hc] at hf
        have hc' : isDelim c = false := by
          cases h : isDelim c
          · rfl
          · exact absurd h hc
        rcases List.mem_cons.mp hf with rfl | hf
        · refine ⟨by simp, fun d hd => ?_⟩
          rcases List.mem_cons.mp hd with rfl | hd
          · exact ⟨hc', List.mem_cons_self _ _⟩
          · have hdtw := List.mem_takeWhile_imp hd
            have : isDelim d = false := by simpa using hdtw
            exact ⟨this,
              List.mem_cons_of_mem c ((List.takeWhile_prefix _).subset hd)⟩
        · have hdrop : (rest.dropWhile (fun d => !isDelim d)).length ≤ fuel :=
            Nat.le_trans (length_dropWhile_le _ _) hrest
          obtain ⟨hne, hmem⟩ := ih _ hdrop f hf
          exact ⟨hne, fun d hd =>
            ⟨(hmem d hd).1, List.mem_cons_of_mem c
              ((List.dropWhile_sublist _).subset (hmem d hd).2)⟩⟩

/-- Fragment properties at the `delimSplit` wrapper. -/
theorem delimSplit_fragments (l : List Char) :
    ∀ f ∈ delimSplit l, f ≠ [] ∧ ∀ c ∈ f, isDelim c = false ∧ c ∈ l :=
  delimSplitF_fragments l.length l (Nat.le_refl _)

/-- Every findall piece is nonempty, drawn from the input, and is a
letter run, a digit run, or a single non-alphanumeric character. -/
theorem findallPiecesF_shape (fuel : Nat) :
    ∀ l : List Char, l.length ≤ fuel →
      ∀ p ∈ findallPiecesF fuel l,
        p ≠ [] ∧ (∀ c ∈ p, c ∈ l) ∧
          ((∀ c ∈ p, c.isAlpha = true) ∨ (∀ c ∈ p, c.isDigit = true) ∨
            (∃ c, p = [c] ∧ c.isAlpha = false ∧ c.isDigit = false)) := by
  induction fuel with
  | zero =>
    intro l hl p hp
    rcases l with _ | ⟨c, rest⟩
    · simp [findallPiecesF] at hp
    · simp at hl
  | succ fuel ih =>
    intro l hl p hp
    rcases l with _ | ⟨c, rest⟩
    · simp [findallPiecesF] at hp
    · simp only [findallPiecesF] at hp
      have hrest : rest.length ≤ fuel := by
        simpa using Nat.le_of_succ_le_succ hl
      by_cases ha : c.isAlpha = true
      · rw [if_pos ha] at hp
        rcases List.mem_cons.mp hp with rfl | hp
        · refine ⟨by simp, fun d hd => ?_, Or.inl (fun d hd => ?_)⟩
          · rcases List.mem_cons.mp hd with rfl | hd
            · exact List.mem_cons_self _ _
            · exact List.mem_cons_of_mem c ((List.takeWhile_prefix _).subset hd)
          · rcases List.mem_cons.mp hd with rfl | hd
            · exact ha
            · exact List.mem_takeWhile_imp hd
        · have hdrop : (rest.dropWhile Char.isAlpha).length ≤ fuel :=
            Nat.le_trans (length_dropWhile_le _ _) hrest
          obtain ⟨hne, hmem, hshape⟩ := ih _ hdrop p hp
          exact ⟨hne, fun d hd => List.mem_cons_of_mem c
            ((List.dropWhile_sublist _).subset (hmem d hd)), hshape⟩
      · rw [if_neg ha] at hp
        have ha' : c.isAlpha = false := by
          cases h : c.isAlpha
          · rfl
          · exact absurd h ha
        by_cases hd : c.isDigit = true
        · rw [if_pos hd] at hp
          rcases List.mem_cons.mp hp with rfl | hp
          · refine ⟨by simp, fun d hdm => ?_, Or.inr (Or.inl (fun d hdm => ?_))⟩
            · rcases List.mem_cons.mp hdm with rfl | hdm
              · exact List.mem_cons_self _ _
              · exact List.mem_cons_of_mem c ((List.takeWhile_prefix _).subset hdm)
            · rcases List.mem_cons.mp hdm with rfl | hdm
              · exact hd
              · exact List.mem_takeWhile_imp hdm
          · have hdrop : (rest.dropWhile Char.isDigit).length ≤ fuel :=
              Nat.le_trans (length_dropWhile_le _ _) hrest
            obtain ⟨hne, hmem, hshape⟩ := ih _ hdrop p hp
            exact ⟨hne, fun d hdm => List.mem_cons_of_mem c
              ((List.dropWhile_sublist _).subset (hmem d hdm)), hshape⟩
        · rw [if_neg hd] at hp
          have hd' : c.isDigit = false := by
            cases h : c.isDigit
            · rfl
            · exact absurd h hd
          rcases List.mem_cons.mp hp with rfl | hp
          · exact ⟨by simp, fun d hdm => by
              rcases List.mem_cons.mp hdm with rfl | hdm
              · exact List.mem_cons_self _ _
              · simp at hdm,
              Or.inr (Or.inr ⟨c, rfl, ha', hd'⟩)⟩
          · obtain ⟨hne, hmem, hshape⟩ := ih rest hrest p hp
            exact ⟨hne, fun d hdm =>
              List.mem_cons_of_mem c (hmem d hdm), hshape⟩

/-- Shape of every token produced by the character-level tokenizer:
nonempty, separator-free, drawn from the label, and a letter run, digit
run, or single non-alphanumeric character. -/
theorem tokenizeL_shape (label : List Char) :
    ∀ t ∈ tokenizeL label,
      t ≠ [] ∧ (∀ c ∈ t, isDelim c = false ∧ c ∈ label) ∧
        ((∀ c ∈ t, c.isAlpha = true) ∨ (∀ c ∈ t, c.isDigit = true) ∨
          (∃ c, t = [c] ∧ c.isAlpha = false ∧ c.isDigit = false)) := by
  intro t ht
  simp only [tokenizeL, List.mem_flatten, List.mem_map] at ht
  obtain ⟨ps, ⟨frag, hfrag, rfl⟩, htps⟩ := ht
  rw [List.mem_filter] at hfrag
  obtain ⟨hfragmem, -⟩ := hfrag
  obtain ⟨hfragne, hfragchars⟩ := delimSplit_fragments label frag hfragmem
  simp only [split_alpha_num, List.mem_filter] at htps
  obtain ⟨htp, -⟩ := htps
  obtain ⟨hne, hmem, hshape⟩ :=
    findallPiecesF_shape frag.length frag (Nat.le_refl _) t htp
  exact ⟨hne, fun c hc => ⟨(hfragchars c (hmem c hc)).1,
    (hfragchars c (hmem c hc)).2⟩, hshape⟩

/-- A list of separator characters splits to no fragments. -/
theorem delimSplitF_all_delim (fuel : Nat) :
    ∀ l : List Char, (∀ c ∈ l, isDelim c = true) → delimSplitF fuel l = [] := by
  induction fuel with
  | zero =>
    intro l hl
    rcases l with _ | ⟨c, rest⟩ <;> simp [delimSplitF]
  | succ fuel ih =>
    intro l hl
    rcases l with _ | ⟨c, rest⟩
    · simp [delimSplitF]
    · simp only [delimSplitF, if_pos (hl c (List.mem_cons_self c rest))]
      exact ih rest (fun d hd => hl d (List.mem_cons_of_mem c hd))

/-- C7: every token the tokenizer emits is non-empty and free of the
six separator characters; an empty or all-separator label tokenizes to
the empty sequence; and the two concrete examples of the specification
hold: `tokenize "AHU-03.SAT_AI" = ["AHU","03","SAT","AI"]` and
`tokenize "RM1203E" = ["RM","1203","E"]`. -/
theorem claim_C7_tokenizer_output :
    (∀ label : String, ∀ tok ∈ tokenize label,
      tok ≠ "" ∧ ∀ c ∈ tok.data, isDelim c = false) ∧
    (∀ label : String,
      (∀ c ∈ label.data, isDelim c = true) → tokenize label = []) ∧
    tokenize "AHU-03.SAT_AI" = ["AHU", "03", "SAT", "AI"] ∧
    tokenize "RM1203E" = ["RM", "1203", "E"] ∧
    tokenize "" = [] := by
  refine ⟨?_, ?_, by decide, by decide, by decide⟩
  · intro label tok htok
    simp only [tokenize, List.mem_map] at htok
    obtain ⟨t, ht, rfl⟩ := htok
    obtain ⟨hne, hchars, -⟩ := tokenizeL_shape label.data t ht
    constructor
    · intro hcontra
      exact hne (congrArg String.data hcontra)
    · exact fun c hc => (hchars c hc).1
  · intro label hall
    simp only [tokenize, tokenizeL, delimSplit, delimSplitF_all_delim _ _ hall]
    rfl

/-- Witness for C7 at the concrete label "AHU-03.SAT_AI" and the
concrete all-separator label. -/
theorem claim_C7_witness :
    ("AHU" ≠ "" ∧ ∀ c ∈ "AHU".data, isDelim c = false) ∧
      tokenize " _.-/:" = [] :=
  ⟨claim_C7_tokenizer_output.1 "AHU-03.SAT_AI" "AHU" (by decide),
    claim_C7_tokenizer_output.2.1 " _.-/:" (by decide)⟩

/-- C2: on the corpus of 12 records of point label
"SIEMENS_AHU-01.SAT_AI_CMD", six in each of two buildings, the
vocabulary classifier with the source's default thresholds puts "AI" in
`io_type_vocab`, "SIEMENS" in `vendor_vocab`, "AHU" in `equip_vocab`,
"SAT" in `subcomp_vocab` and "CMD" in `point_func_vocab`. -/
theorem claim_C2_end_to_end_vocab_induction :
    "AI" ∈ (extract_vocab corpusC2).io_type_vocab ∧
    "SIEMENS" ∈ (extract_vocab corpusC2).vendor_vocab ∧
    "AHU" ∈ (extract_vocab corpusC2).equip_vocab ∧
    "SAT" ∈ (extract_vocab corpusC2).subcomp_vocab ∧
    "CMD" ∈ (extract_vocab corpusC2).point_func_vocab := by
  decide

/-- Counterexample to C8 as stated: the tab character of the label
"A\tB" is neither an ASCII letter, nor a digit, nor one of the six
separator characters, yet it does not appear in the tokenizer output as
its own single-character token (the output is just ["A", "B"]). -/
theorem claim_C8_counterexample :
    Char.isAlpha '\t' = false ∧ Char.isDigit '\t' = false ∧
    isDelim '\t' = false ∧ '\t' ∈ "A\tB".data ∧
    tokenize "A\tB" = ["A", "B"] ∧
    String.mk ['\t'] ∉ tokenize "A\tB" := by
  decide

/-- The single-character non-alphanumeric tokens among the
stripped findall pieces of a fragment are exactly the fragment's
non-alphanumeric, non-whitespace characters, in order. -/
theorem pieces_other_filter (fuel : Nat) :
    ∀ f : List Char, f.length ≤ fuel →
      ((findallPiecesF fuel f).filter stripTruthy).filter
          (fun p => p.all (fun c => !(c.isAlpha || c.isDigit))) =
        (f.filter (fun c => !(c.isAlpha || c.isDigit) && !pyIsSpace c)).map
          (fun c => [c]) := by
  induction fuel with
  | zero =>
    intro f hf
    rcases f with _ | ⟨c, rest⟩
    · rfl
    · simp at hf
  | succ fuel ih =>
    intro f hf
    rcases f with _ | ⟨c, rest⟩
    · rfl
    · simp only [findallPiecesF]
      have hrest : rest.length ≤ fuel := by
        simpa using Nat.le_of_succ_le_succ hf
      by_cases ha : c.isAlpha = true
      · rw [if_pos ha]
        have htw := List.takeWhile_append_dropWhile (p := Char.isAlpha) (l := rest)
        have hstrip : stripTruthy (c :: rest.takeWhile Char.isAlpha) = true := by
          simp only [stripTruthy, List.any_cons, Bool.or_eq_true]
          exact Or.inl (by simp [alnum_not_space (Or.inl ha)])
        have hall : (c :: rest.takeWhile Char.isAlpha).all
            (fun c => !(c.isAlpha || c.isDigit)) = false := by
          simp [ha]
        rw [List.filter_cons, if_pos hstrip, List.filter_cons,
          if_neg (by rw [hall]; exact Bool.false_ne_true)]
        rw [ih _ (Nat.le_trans (length_dropWhile_le _ _) hrest)]
        have hc : (!(c.isAlpha || c.isDigit) && !pyIsSpace c) = false := by
          simp [ha]
        conv_rhs => rw [← htw]
        rw [List.filter_cons, if_neg (by rw [hc]; exact Bool.false_ne_true)]
        rw [List.filter_append]
        have htwnil : (rest.takeWhile Char.isAlpha).filter
            (fun c => !(c.isAlpha || c.isDigit) && !pyIsSpace c) = [] := by
          rw [List.filter_eq_nil_iff]
          intro a hamem
          simp [List.mem_takeWhile_imp hamem]
        rw [htwnil]
        rfl
      · rw [if_neg ha]
        have ha' : c.isAlpha = false := by
          cases h : c.isAlpha
          · rfl
          · exact absurd h ha
        by_cases hd : c.isDigit = true
        · rw [if_pos hd]
          have htw := List.takeWhile_append_dropWhile (p := Char.isDigit) (l := rest)
          have hstrip : stripTruthy (c :: rest.takeWhile Char.isDigit) = true := by
            simp only [stripTruthy, List.any_cons, Bool.or_eq_true]
            exact Or.inl (by simp [alnum_not_space (Or.inr hd)])
          have hall : (c :: rest.takeWhile Char.isDigit).all
              (fun c => !(c.isAlpha || c.isDigit)) = false := by
            simp [hd]
          rw [List.filter_cons, if_pos hstrip, List.filter_cons,
            if_neg (by rw [hall]; exact Bool.false_ne_true)]
          rw [ih _ (Nat.le_trans (length_dropWhile_le _ _) hrest)]
          have hc : (!(c.isAlpha || c.isDigit) && !pyIsSpace c) = false := by
            simp [hd]
          conv_rhs => rw [← htw]
          rw [List.filter_cons, if_neg (by rw [hc]; exact Bool.false_ne_true)]
          rw [List.filter_append]
          have htwnil : (rest.takeWhile Char.isDigit).filter
              (fun c => !(c.isAlpha || c.isDigit) && !pyIsSpace c) = [] := by
            rw [List.filter_eq_nil_iff]
            intro a hamem
            simp [List.mem_takeWhile_imp hamem]
          rw [htwnil]
          rfl
        · rw [if_neg hd]
          have hd' : c.isDigit = false := by
            cases h : c.isDigit
            · rfl
            · exact absurd h hd
          have hall : ([c].all (fun c => !(c.isAlpha || c.isDigit))) = true := by
            simp [ha', hd']
          rw [List.filter_cons]
          by_cases hsp : pyIsSpace c = true
          · have hstrip : stripTruthy [c] = false := by
              simp [stripTruthy, hsp]
            rw [if_neg (by simp [hstrip])]
            rw [ih rest hrest, List.filter_cons,
              if_neg (by simp [hsp])]
          · have hsp' : pyIsSpace c = false := by
              cases h : pyIsSpace c
              · rfl
              · exact absurd h hsp
            have hstrip : stripTruthy [c] = true := by
              simp [stripTruthy, hsp']
            rw [if_pos hstrip, List.filter_cons, if_pos hall]
            rw [ih rest hrest, List.filter_cons,
              if_pos (by simp [ha', hd', hsp'])]
            rfl

/-- The single-character non-alphanumeric tokens of the tokenizer
output are exactly the label's characters that are neither
alphanumeric, nor separators, nor whitespace, in original order
(character-list level, fuel-generalised). -/
theorem tokenizeL_other_chars (fuel : Nat) :
    ∀ l : List Char, l.length ≤ fuel →
      ((((delimSplitF fuel l).filter stripTruthy).map split_alpha_num).flatten).filter
          (fun p => p.all (fun c => !(c.isAlpha || c.isDigit))) =
        (l.filter (fun c => !(c.isAlpha || c.isDigit) && !isDelim c &&
          !pyIsSpace c)).map (fun c => [c]) := by
  induction fuel with
  | zero =>
    intro l hl
    rcases l with _ | ⟨c, rest⟩
    · rfl
    · simp at hl
  | succ fuel ih =>
    intro l hl
    rcases l with _ | ⟨c, rest⟩
    · rfl
    · simp only [delimSplitF]
      have hrest : rest.length ≤ fuel := by
        simpa using Nat.le_of_succ_le_succ hl
      by_cases hc : isDelim c = true
      · rw [if_pos hc, ih rest hrest, List.filter_cons,
          if_neg (by simp [hc])]
      · rw [if_neg hc]
        have hc' : isDelim c = false := by
          cases h : isDelim c
          · rfl
          · exact absurd h hc
        have htw := List.takeWhile_append_dropWhile
          (p := fun d => !isDelim d) (l := rest)
        have hdw : (rest.dropWhile (fun d => !isDelim d)).length ≤ fuel :=
          Nat.le_trans (length_dropWhile_le _ _) hrest
        have hfragdelim : ∀ x ∈ c :: rest.takeWhile (fun d => !isDelim d),
            isDelim x = false := by
          intro x hx
          rcases List.mem_cons.mp hx with rfl | hx
          · exact hc'
          · simpa using List.mem_takeWhile_imp hx
        have hcongr : (c :: rest.takeWhile (fun d => !isDelim d)).filter
            (fun x => !(x.isAlpha || x.isDigit) && !pyIsSpace x) =
            (c :: rest.takeWhile (fun d => !isDelim d)).filter
            (fun x => !(x.isAlpha || x.isDigit) && !isDelim x && !pyIsSpace x) := by
          refine List.filter_congr ?_
          intro x hx
          rw [hfragdelim x hx]
          simp
        rw [List.filter_cons]
        by_cases hstrip : stripTruthy (c :: rest.takeWhile (fun d => !isDelim d)) = true
        · rw [if_pos hstrip]
          rw [List.map_cons, List.flatten_cons, List.filter_append]
          have hfrag : (split_alpha_num
              (c :: rest.takeWhile (fun d => !isDelim d))).filter
              (fun p => p.all (fun c => !(c.isAlpha || c.isDigit))) =
              ((c :: rest.takeWhile (fun d => !isDelim d)).filter
                (fun x => !(x.isAlpha || x.isDigit) && !isDelim x &&
                  !pyIsSpace x)).map (fun c => [c]) := by
            rw [split_alpha_num, findallPieces,
              pieces_other_filter _ _ (Nat.le_refl _), hcongr]
          rw [hfrag, ih _ hdw]
          conv_rhs => rw [← htw]
          rw [← List.cons_append, List.filter_append, List.map_append]
        · have hstrip' : stripTruthy
              (c :: rest.takeWhile (fun d => !isDelim d)) = false := by
            cases h : stripTruthy (c :: rest.takeWhile (fun d => !isDelim d))
            · rfl
            · exact absurd h hstrip
          rw [if_neg (by rw [hstrip']; exact Bool.false_ne_true)]
          have hallsp : ∀ x ∈ c :: rest.takeWhile (fun d => !isDelim d),
              pyIsSpace x = true := by
            intro x hx
            have h2 := List.any_eq_false.mp hstrip' x hx
            simpa using h2
          rw [ih _ hdw]
          conv_rhs => rw [← htw]
          rw [← List.cons_append, List.filter_append]
          have hnil : (c :: rest.takeWhile (fun d => !isDelim d)).filter
              (fun x => !(x.isAlpha || x.isDigit) && !isDelim x &&
                !pyIsSpace x) = [] := by
            rw [List.filter_eq_nil_iff]
            intro x hx
            simp [hallsp x hx]
          rw [hnil]
          rfl

/-- C8, amended: every character of the label that is neither an ASCII
letter, nor a decimal digit, nor one of the six separator characters,
nor Python whitespace, appears in the tokenizer output as its own
single-character token, in original position order; equivalently, the
single-character non-alphanumeric tokens are exactly those characters
in order.  (Whitespace characters outside the six separators, such as
a tab, are silently dropped.) -/
theorem claim_C8_amended_other_chars (label : String) :
    (tokenize label).filter
        (fun t => t.data.all (fun c => !(c.isAlpha || c.isDigit))) =
      (label.data.filter (fun c => !(c.isAlpha || c.isDigit) && !isDelim c &&
        !pyIsSpace c)).map (fun c => String.mk [c]) := by
  have h := tokenizeL_other_chars label.data.length label.data (Nat.le_refl _)
  rw [tokenize, List.filter_map]
  have hcomp : ((fun t : String => t.data.all (fun c => !(c.isAlpha || c.isDigit)))
      ∘ (fun t => String.mk t)) =
      (fun p : List Char => p.all (fun c => !(c.isAlpha || c.isDigit))) := rfl
  rw [hcomp, tokenizeL, delimSplit, h, List.map_map]
  rfl

/-- The BLDG pattern rejects every single-character token. -/
theorem bldgPat_single (c : Char) : bldgPat [c] = false := rfl

/-- The BLDG pattern rejects every pure letter run (its tail must end
in at least one digit). -/
theorem bldgPat_alpha {t : List Char} (h : ∀ c ∈ t, c.isAlpha = true) :
    bldgPat t = false := by
  rcases t with _ | ⟨b, _ | ⟨l, _ | ⟨d, _ | ⟨g, rest⟩⟩⟩⟩
  · rfl
  · rfl
  · rfl
  · rfl
  · rcases rest with _ | ⟨r, rr⟩
    · simp [bldgPat]
    · have hr : r.isDigit = false :=
        char_alpha_not_digit (h r (by simp))
      simp [bldgPat, hr]

/-- The BLDG pattern rejects every pure digit run (its head must be the
letter B). -/
theorem bldgPat_digit {t : List Char} (h : ∀ c ∈ t, c.isDigit = true) :
    bldgPat t = false := by
  rcases t with _ | ⟨b, _ | ⟨l, _ | ⟨d, _ | ⟨g, rest⟩⟩⟩⟩
  · rfl
  · rfl
  · rfl
  · rfl
  · have hb := h b (by simp)
    have hbB : (b.toUpper == 'B') = false := by
      rw [char_digit_toUpper hb]
      exact char_beq_false_of_class Char.isDigit hb (by decide)
    simp [bldgPat, hbB]

/-- On any token of tokenizer shape (letter run, digit run, or single
non-alphanumeric character), the labeler never answers BLDG. -/
theorem label_token_ne_bldg {v : Vocabs} {tok : String}
    (hshape : (∀ c ∈ tok.data, c.isAlpha = true) ∨
      (∀ c ∈ tok.data, c.isDigit = true) ∨
      (∃ c, tok.data = [c] ∧ c.isAlpha = false ∧ c.isDigit = false)) :
    label_token tok v ≠ "BLDG" := by
  have hbp : bldgPat tok.data = false := by
    rcases hshape with h | h | ⟨c, hc, -, -⟩
    · exact bldgPat_alpha h
    · exact bldgPat_digit h
    · rw [hc]
      exact bldgPat_single c
  simp only [label_token]
  split_ifs with h1 h2 h3 h4 h5 h6 h7 h8 h9
  · decide
  · decide
  · decide
  · decide
  · decide
  · decide
  · decide
  · decide
  · exact absurd h9 (by simp [hbp])
  · decide

/-- The structured-aggregation fold never sets `bldg` when no pair is
categorised BLDG. -/
theorem aggFold_bldg_none {ps : List (String × String)} :
    ∀ s : AggState, (∀ p ∈ ps, p.2 ≠ "BLDG") →
      (ps.foldl aggStep s).bldg = s.bldg := by
  induction ps with
  | nil => intro s h; rfl
  | cons p ps ih =>
    intro s h
    rw [List.foldl_cons, ih _ (fun q hq => h q (List.mem_cons_of_mem p hq))]
    have hp := h p (List.mem_cons_self p ps)
    simp only [aggStep]
    split_ifs <;> simp_all

/-- C10: on every input record and vocabulary bundle, the end-to-end
annotation never assigns the BLDG category to any token, and the
structured `bldg` field is always null — the tokenizer splits every
letter/digit boundary, so no token can match the BLDG pattern. -/
theorem claim_C10_bldg_never_assigned (vocabs : Vocabs) (raw : RawRecord) :
    "BLDG" ∉ (annotate_record raw vocabs).token_labels ∧
    (annotate_record raw vocabs).structured.bldg = none := by
  have hlab : ∀ lbl ∈ weak_label_tokens (tokenize raw.point_label) vocabs,
      lbl ≠ "BLDG" := by
    intro lbl hl
    simp only [weak_label_tokens, List.mem_map] at hl
    obtain ⟨tok, htok, rfl⟩ := hl
    simp only [tokenize, List.mem_map] at htok
    obtain ⟨t, ht, rfl⟩ := htok
    have hshape := (tokenizeL_shape raw.point_label.data t ht).2.2
    exact label_token_ne_bldg (by simpa using hshape)
  constructor
  · intro hmem
    exact hlab "BLDG" hmem rfl
  · show (build_structured (tokenize raw.point_label)
      (weak_label_tokens (tokenize raw.point_label) vocabs)).bldg = none
    simp only [build_structured]
    rw [aggFold_bldg_none initAggState]
    · rfl
    · intro p hp
      exact hlab p.2 (List.of_mem_zip hp).2

/-- The first FLOOR pattern rejects all-digit tokens. -/
theorem floorPat1_digits {t : List Char} (h : ∀ c ∈ t, c.isDigit = true) :
    floorPat1 t = false := by
  rcases t with _ | ⟨c, rest⟩
  · rfl
  · have hc := h c (by simp)
    have hF : (c == 'F') = false :=
      char_beq_false_of_class Char.isDigit hc (by decide)
    have hf : (c == 'f') = false :=
      char_beq_false_of_class Char.isDigit hc (by decide)
    simp [floorPat1, hF, hf]

/-- The second FLOOR pattern rejects all-digit tokens. -/
theorem floorPat2_digits {t : List Char} (h : ∀ c ∈ t, c.isDigit = true) :
    floorPat2 t = false := by
  cases hbe : floorPat2 t
  · rfl
  · exfalso
    have heq : t.map Char.toUpper = ['F', 'L', 'O', 'O', 'R'] :=
      eq_of_beq (by simpa [floorPat2] using hbe)
    rcases t with _ | ⟨c, rest⟩
    · simp at heq
    · rw [List.map_cons] at heq
      have hc := h c (by simp)
      injection heq with hhead htail
      rw [char_digit_toUpper hc] at hhead
      subst hhead
      exact absurd hc (by decide)

/-- The first ROOM pattern rejects all-digit tokens. -/
theorem roomPat1_digits {t : List Char} (h : ∀ c ∈ t, c.isDigit = true) :
    roomPat1 t = false := by
  rcases t with _ | ⟨c, _ | ⟨m, rest⟩⟩
  · rfl
  · rfl
  · have hc := h c (by simp)
    have hR : (c == 'R') = false :=
      char_beq_false_of_class Char.isDigit hc (by decide)
    have hr : (c == 'r') = false :=
      char_beq_false_of_class Char.isDigit hc (by decide)
    simp [roomPat1, hR, hr]

/-- On all-digit tokens the second ROOM pattern is exactly the length
test 3-or-4. -/
theorem roomPat2_digits {t : List Char} (h : ∀ c ∈ t, c.isDigit = true) :
    roomPat2 t = (decide (3 ≤ t.length) && decide (t.length ≤ 4)) := by
  simp only [roomPat2]
  rw [takeWhile_eq_self_of_all h, dropWhile_eq_nil_of_all h]
  simp [optLetterEnd]

/-- The third ROOM pattern rejects all-digit tokens. -/
theorem roomPat3_digits {t : List Char} (h : ∀ c ∈ t, c.isDigit = true) :
    roomPat3 t = false := by
  rcases t with _ | ⟨c, _ | ⟨r, rr⟩⟩
  · rfl
  · simp [roomPat3]
  · have hr : r.isAlpha = false :=
      char_digit_not_alpha (h r (by simp))
    simp [roomPat3, takeWhile_eq_nil_of_head hr]

/-- The first EQUIP_ID pattern accepts every non-empty all-digit
token. -/
theorem equipIdPat1_digits {t : List Char} (hne : t ≠ [])
    (h : ∀ c ∈ t, c.isDigit = true) : equipIdPat1 t = true := by
  rcases t with _ | ⟨c, rest⟩
  · exact absurd rfl hne
  · have hall : (c :: rest).all Char.isDigit = true :=
      List.all_eq_true.mpr h
    simp [equipIdPat1, hall]

/-- C1: a token made entirely of decimal digits whose uppercase form is
in none of the five vocabularies is labeled ZONE (and never EQUIP_ID)
when its length is 3 or 4, and EQUIP_ID when its length is 1, 2, or at
least 5. -/
theorem claim_C1_all_digit_precedence (vocabs : Vocabs) (token : String)
    (h1 : pyUpper token ∉ vocabs.vendor_vocab)
    (h2 : pyUpper token ∉ vocabs.io_type_vocab)
    (h3 : pyUpper token ∉ vocabs.equip_vocab)
    (h4 : pyUpper token ∉ vocabs.subcomp_vocab)
    (h5 : pyUpper token ∉ vocabs.point_func_vocab)
    (hd : ∀ c ∈ token.data, c.isDigit = true) :
    ((token.length = 3 ∨ token.length = 4) →
      label_token token vocabs = "ZONE" ∧
        label_token token vocabs ≠ "EQUIP_ID") ∧
    ((token.length = 1 ∨ token.length = 2 ∨ 5 ≤ token.length) →
      label_token token vocabs = "EQUIP_ID") := by
  have hc1 : vocabs.vendor_vocab.contains (pyUpper token) = false := by
    simpa using h1
  have hc2 : vocabs.io_type_vocab.contains (pyUpper token) = false := by
    simpa using h2
  have hc3 : vocabs.equip_vocab.contains (pyUpper token) = false := by
    simpa using h3
  have hc4 : vocabs.subcomp_vocab.contains (pyUpper token) = false := by
    simpa using h4
  have hc5 : vocabs.point_func_vocab.contains (pyUpper token) = false := by
    simpa using h5
  have hlen : token.length = token.data.length := rfl
  have hlab : label_token token vocabs =
      if (roomPat1 token.data || roomPat2 token.data ||
          roomPat3 token.data) = true then "ZONE"
      else if (equipIdPat1 token.data || equipIdPat2 token.data) = true
        then "EQUIP_ID"
      else if bldgPat token.data = true then "BLDG"
      else "MISC" := by
    simp only [label_token]
    rw [if_neg (by intro hcon; rw [hc1] at hcon; exact Bool.false_ne_true hcon),
      if_neg (by intro hcon; rw [hc2] at hcon; exact Bool.false_ne_true hcon),
      if_neg (by intro hcon; rw [hc3] at hcon; exact Bool.false_ne_true hcon),
      if_neg (by intro hcon; rw [hc4] at hcon; exact Bool.false_ne_true hcon),
      if_neg (by intro hcon; rw [hc5] at hcon; exact Bool.false_ne_true hcon),
      if_neg (by simp [floorPat1_digits hd, floorPat2_digits hd])]
  constructor
  · intro hlen34
    have hroom : roomPat2 token.data = true := by
      rw [roomPat2_digits hd]
      rcases hlen34 with h | h <;> rw [hlen] at h <;> simp [h]
    have hz : label_token token vocabs = "ZONE" := by
      rw [hlab, if_pos (by simp [hroom])]
    exact ⟨hz, by rw [hz]; decide⟩
  · intro hlen125
    have hne : token.data ≠ [] := by
      intro hcontra
      rw [hlen, hcontra] at hlen125
      simp at hlen125
    have hrooms : (roomPat1 token.data || roomPat2 token.data ||
        roomPat3 token.data) = false := by
      rw [roomPat1_digits hd, roomPat2_digits hd, roomPat3_digits hd]
      rw [hlen] at hlen125
      simp only [Bool.false_or, Bool.or_false]
      rcases hlen125 with h | h | h
      · simp [h]
      · simp [h]
      · simp [h]
        omega
    rw [hlab, if_neg (by rw [hrooms]; exact Bool.false_ne_true),
      if_pos (by simp [equipIdPat1_digits hne hd])]

/-- Witness for C1 at the all-digit tokens "123" and "12" with empty
vocabularies. -/
theorem claim_C1_witness :
    label_token "123" ⟨[], [], [], [], []⟩ = "ZONE" ∧
    label_token "12" ⟨[], [], [], [], []⟩ = "EQUIP_ID" :=
  ⟨((claim_C1_all_digit_precedence ⟨[], [], [], [], []⟩ "123" (by decide)
      (by decide) (by decide) (by decide) (by decide) (by decide)).1
      (Or.inl (by decide))).1,
    (claim_C1_all_digit_precedence ⟨[], [], [], [], []⟩ "12" (by decide)
      (by decide) (by decide) (by decide) (by decide) (by decide)).2
      (Or.inr (Or.inl (by decide)))⟩

/-- One step of the BIO loop: the emitted head tag and the updated
`prev_cat`. -/
theorem bioGo_cons (prev c₀ : Option String) (cs : List (Option String)) :
    bioGo prev (c₀ :: cs) =
      (match effCat c₀ with
        | none => "O"
        | some c => if prev = some c then "I-" ++ c else "B-" ++ c) ::
        bioGo (effCat c₀) cs := by
  rcases c₀ with _ | cat
  · rfl
  · simp only [bioGo, effCat]
    by_cases hm : cat = "MISC"
    · simp [hm]
    · by_cases hp : prev = some cat <;> simp [hm, hp]

/-- A B-tag is never the O tag. -/
theorem bTag_ne_O (c : String) : ("B-" ++ c == "O") = false := by
  rw [beq_eq_false_iff_ne]
  intro h
  have hl := congrArg String.length h
  rw [String.length_append] at hl
  have h2 : "B-".length = 2 := rfl
  have h1 : "O".length = 1 := rfl
  omega

/-- An I-tag is never the O tag. -/
theorem iTag_ne_O (c : String) : ("I-" ++ c == "O") = false := by
  rw [beq_eq_false_iff_ne]
  intro h
  have hl := congrArg String.length h
  rw [String.length_append] at hl
  have h2 : "I-".length = 2 := rfl
  have h1 : "O".length = 1 := rfl
  omega

/-- The BIO loop output has the input's length. -/
theorem bioGo_length (cats : List (Option String)) :
    ∀ prev, (bioGo prev cats).length = cats.length := by
  induction cats with
  | nil => intro prev; rfl
  | cons c₀ cs ih =>
    intro prev
    rw [bioGo_cons, List.length_cons, List.length_cons, ih (effCat c₀)]

/-- Pointwise characterisation of the BIO loop: position `i` carries
`O` exactly on an ineffective category, and otherwise a B- or I-tag
according to whether the previous effective category matches (the
incoming `prev` standing in at position 0). -/
theorem bioGo_getElem (cats : List (Option String)) :
    ∀ (prev : Option String) (i : Nat),
      (bioGo prev cats)[i]? = (cats[i]?).map (fun copt =>
        match effCat copt with
        | none => "O"
        | some c =>
          if (if i = 0 then prev
            else effCat ((cats[i - 1]?).getD none)) = some c
          then "I-" ++ c else "B-" ++ c) := by
  induction cats with
  | nil => intro prev i; simp [bioGo]
  | cons c₀ cs ih =>
    intro prev i
    rw [bioGo_cons]
    rcases i with _ | j
    · simp only [List.getElem?_cons_zero, Option.map_some]
      rcases heff : effCat c₀ with _ | c
      · simp [heff]
      · simp [heff]
    · rw [List.getElem?_cons_succ, List.getElem?_cons_succ, ih (effCat c₀) j]
      rcases j with _ | k
      · rcases hcs : cs[0]? with _ | copt
        · simp [hcs]
        · simp only [hcs, Option.map_some]
          rcases heff : effCat copt with _ | c
          · simp [heff]
          · simp [heff, List.getElem?_cons_zero]
      · simp only [List.getElem?_cons_succ, Nat.add_sub_cancel]
        rcases hcs : cs[k + 1]? with _ | copt
        · simp
        · rcases heff : effCat copt with _ | c
          · simp [heff]
          · simp [heff]

/-- The number of O tags equals the number of ineffective
categories. -/
theorem bioGo_count_O (cats : List (Option String)) :
    ∀ prev, (bioGo prev cats).count "O" =
      cats.countP (fun copt => decide (effCat copt = none)) := by
  induction cats with
  | nil => intro prev; rfl
  | cons c₀ cs ih =>
    intro prev
    rw [bioGo_cons, List.count_cons, List.countP_cons, ih (effCat c₀)]
    rcases h : effCat c₀ with _ | c
    · simp [h]
    · by_cases hp : prev = some c
      · simp [hp, iTag_ne_O c, h]
      · simp [hp, bTag_ne_O c, h]

/-- C3: the BIO encoder returns a sequence of the input's length; MISC
or absent categories map to O; any other category yields B- when the
previous effective category differs (including at position 0 and right
after an O) and I- when it matches; the count of O tags equals the
count of MISC/absent categories; and a real category right after an
ineffective one always opens with a B-tag, so runs never merge across
a MISC. -/
theorem claim_C3_bio_encoding :
    (∀ cats : List (Option String),
      (categories_to_bio cats).length = cats.length) ∧
    (∀ (cats : List (Option String)) (i : Nat),
      (categories_to_bio cats)[i]? = (cats[i]?).map (fun copt =>
        match effCat copt with
        | none => "O"
        | some c =>
          if (if i = 0 then none
            else effCat ((cats[i - 1]?).getD none)) = some c
          then "I-" ++ c else "B-" ++ c)) ∧
    (∀ cats : List (Option String),
      (categories_to_bio cats).count "O" =
        cats.countP (fun copt => decide (effCat copt = none))) ∧
    (∀ (cats : List (Option String)) (i : Nat) (c : String),
      effCat ((cats[i]?).getD none) = none →
      effCat ((cats[i + 1]?).getD none) = some c →
      (categories_to_bio cats)[i + 1]? = some ("B-" ++ c)) := by
  refine ⟨fun cats => bioGo_length cats none,
    fun cats i => bioGo_getElem cats none i,
    fun cats => bioGo_count_O cats none, ?_⟩
  intro cats i c hprev hcur
  rw [categories_to_bio, bioGo_getElem cats none (i + 1)]
  rcases hc : cats[i + 1]? with _ | copt
  · rw [hc] at hcur
    simp [effCat] at hcur
  · rw [hc] at hcur
    simp only [Option.getD_some] at hcur
    simp [hcur, Nat.add_sub_cancel, hprev]

/-- Witness for C3: right after the MISC at position 1 the second
EQUIP segment restarts with a B-tag. -/
theorem claim_C3_witness :
    (categories_to_bio [some "EQUIP", some "MISC", some "EQUIP"])[2]? =
      some ("B-" ++ "EQUIP") :=
  claim_C3_bio_encoding.2.2.2 [some "EQUIP", some "MISC", some "EQUIP"]
    1 "EQUIP" (by decide) (by decide)

/-- Effect of one aggregation step on `bldg` (first occurrence wins). -/
theorem aggStep_bldg (s : AggState) (p : String × String) :
    (aggStep s p).bldg =
      if p.2 = "BLDG" ∧ s.bldg = none then some p.1 else s.bldg := by
  simp only [aggStep]
  split_ifs <;> simp_all

/-- Effect of one aggregation step on `floor`. -/
theorem aggStep_floor (s : AggState) (p : String × String) :
    (aggStep s p).floor =
      if p.2 = "FLOOR" ∧ s.floor = none then some p.1 else s.floor := by
  simp only [aggStep]
  split_ifs <;> simp_all

/-- Effect of one aggregation step on `zone_tokens` (append). -/
theorem aggStep_zone (s : AggState) (p : String × String) :
    (aggStep s p).zone_tokens =
      if p.2 = "ZONE" then s.zone_tokens ++ [p.1] else s.zone_tokens := by
  simp only [aggStep]
  split_ifs <;> simp_all

/-- Effect of one aggregation step on `equip`. -/
theorem aggStep_equip (s : AggState) (p : String × String) :
    (aggStep s p).equip =
      if p.2 = "EQUIP" ∧ s.equip = none then some p.1 else s.equip := by
  simp only [aggStep]
  split_ifs <;> simp_all

/-- Effect of one aggregation step on `equip_id`. -/
theorem aggStep_equip_id (s : AggState) (p : String × String) :
    (aggStep s p).equip_id =
      if p.2 = "EQUIP_ID" ∧ s.equip_id = none then some p.1 else s.equip_id := by
  simp only [aggStep]
  split_ifs <;> simp_all

/-- Effect of one aggregation step on `subcomp` (last wins). -/
theorem aggStep_subcomp (s : AggState) (p : String × String) :
    (aggStep s p).subcomp =
      if p.2 = "SUBCOMP" then some p.1 else s.subcomp := by
  simp only [aggStep]
  split_ifs <;> simp_all

/-- Effect of one aggregation step on `point_func` (last wins). -/
theorem aggStep_point_func (s : AggState) (p : String × String) :
    (aggStep s p).point_func =
      if p.2 = "POINT_FUNC" then some p.1 else s.point_func := by
  simp only [aggStep]
  split_ifs <;> simp_all

/-- Effect of one aggregation step on `io_type` (last wins). -/
theorem aggStep_io_type (s : AggState) (p : String × String) :
    (aggStep s p).io_type =
      if p.2 = "IO_TYPE" then some p.1 else s.io_type := by
  simp only [aggStep]
  split_ifs <;> simp_all

/-- Effect of one aggregation step on `vendor` (last wins). -/
theorem aggStep_vendor (s : AggState) (p : String × String) :
    (aggStep s p).vendor =
      if p.2 = "VENDOR_TAG" then some p.1 else s.vendor := by
  simp only [aggStep]
  split_ifs <;> simp_all

/-- First-wins characterisation of the fold for `bldg`. -/
theorem aggFold_bldg_spec (ps : List (String × String)) :
    ∀ s : AggState, (ps.foldl aggStep s).bldg =
      s.bldg.or ((ps.find? (fun p => p.2 == "BLDG")).map Prod.fst) := by
  induction ps with
  | nil => intro s; simp
  | cons p ps ih =>
    intro s
    rw [List.foldl_cons, ih (aggStep s p), aggStep_bldg, List.find?_cons]
    by_cases hp : p.2 = "BLDG"
    · have hb : (p.2 == "BLDG") = true := beq_iff_eq.mpr hp
      rcases hsb : s.bldg with _ | b
      · simp [hp, hsb, hb]
      · simp [hp, hsb, hb]
    · have hb : (p.2 == "BLDG") = false := beq_eq_false_iff_ne.mpr hp
      simp [hb, hp]

/-- First-wins characterisation of the fold for `floor`. -/
theorem aggFold_floor_spec (ps : List (String × String)) :
    ∀ s : AggState, (ps.foldl aggStep s).floor =
      s.floor.or ((ps.find? (fun p => p.2 == "FLOOR")).map Prod.fst) := by
  induction ps with
  | nil => intro s; simp
  | cons p ps ih =>
    intro s
    rw [List.foldl_cons, ih (aggStep s p), aggStep_floor, List.find?_cons]
    by_cases hp : p.2 = "FLOOR"
    · have hb : (p.2 == "FLOOR") = true := beq_iff_eq.mpr hp
      rcases hsb : s.floor with _ | b
      · simp [hp, hsb, hb]
      · simp [hp, hsb, hb]
    · have hb : (p.2 == "FLOOR") = false := beq_eq_false_iff_ne.mpr hp
      simp [hb, hp]

/-- First-wins characterisation of the fold for `equip`. -/
theorem aggFold_equip_spec (ps : List (String × String)) :
    ∀ s : AggState, (ps.foldl aggStep s).equip =
      s.equip.or ((ps.find? (fun p => p.2 == "EQUIP")).map Prod.fst) := by
  induction ps with
  | nil => intro s; simp
  | cons p ps ih =>
    intro s
    rw [List.foldl_cons, ih (aggStep s p), aggStep_equip, List.find?_cons]
    by_cases hp : p.2 = "EQUIP"
    · have hb : (p.2 == "EQUIP") = true := beq_iff_eq.mpr hp
      rcases hsb : s.equip with _ | b
      · simp [hp, hsb, hb]
      · simp [hp, hsb, hb]
    · have hb : (p.2 == "EQUIP") = false := beq_eq_false_iff_ne.mpr hp
      simp [hb, hp]

/-- First-wins characterisation of the fold for `equip_id`. -/
theorem aggFold_equip_id_spec (ps : List (String × String)) :
    ∀ s : AggState, (ps.foldl aggStep s).equip_id =
      s.equip_id.or ((ps.find? (fun p => p.2 == "EQUIP_ID")).map Prod.fst) := by
  induction ps with
  | nil => intro s; simp
  | cons p ps ih =>
    intro s
    rw [List.foldl_cons, ih (aggStep s p), aggStep_equip_id, List.find?_cons]
    by_cases hp : p.2 = "EQUIP_ID"
    · have hb : (p.2 == "EQUIP_ID") = true := beq_iff_eq.mpr hp
      rcases hsb : s.equip_id with _ | b
      · simp [hp, hsb, hb]
      · simp [hp, hsb, hb]
    · have hb : (p.2 == "EQUIP_ID") = false := beq_eq_false_iff_ne.mpr hp
      simp [hb, hp]

/-- Last-wins characterisation of the fold for `subcomp`. -/
theorem aggFold_subcomp_spec (ps : List (String × String)) :
    ∀ s : AggState, (ps.foldl aggStep s).subcomp =
      (((ps.filter (fun p => p.2 == "SUBCOMP")).map Prod.fst).getLast?).or s.subcomp := by
  induction ps with
  | nil => intro s; simp
  | cons p ps ih =>
    intro s
    rw [List.foldl_cons, ih (aggStep s p), aggStep_subcomp, List.filter_cons]
    by_cases hp : p.2 = "SUBCOMP"
    · have hb : (p.2 == "SUBCOMP") = true := beq_iff_eq.mpr hp
      rw [if_pos hb, List.map_cons, List.getLast?_cons]
      rcases hlast : ((ps.filter (fun p => p.2 == "SUBCOMP")).map Prod.fst).getLast? with _ | v
      · simp [hp, hlast]
      · simp [hp, hlast]
    · have hb : (p.2 == "SUBCOMP") = false := beq_eq_false_iff_ne.mpr hp
      rw [if_neg hp, if_neg (by rw [hb]; exact Bool.false_ne_true)]

/-- Last-wins characterisation of the fold for `point_func`. -/
theorem aggFold_point_func_spec (ps : List (String × String)) :
    ∀ s : AggState, (ps.foldl aggStep s).point_func =
      (((ps.filter (fun p => p.2 == "POINT_FUNC")).map Prod.fst).getLast?).or s.point_func := by
  induction ps with
  | nil => intro s; simp
  | cons p ps ih =>
    intro s
    rw [List.foldl_cons, ih (aggStep s p), aggStep_point_func, List.filter_cons]
    by_cases hp : p.2 = "POINT_FUNC"
    · have hb : (p.2 == "POINT_FUNC") = true := beq_iff_eq.mpr hp
      rw [if_pos hb, List.map_cons, List.getLast?_cons]
      rcases hlast : ((ps.filter (fun p => p.2 == "POINT_FUNC")).map Prod.fst).getLast? with _ | v
      · simp [hp, hlast]
      · simp [hp, hlast]
    · have hb : (p.2 == "POINT_FUNC") = false := beq_eq_false_iff_ne.mpr hp
      rw [if_neg hp, if_neg (by rw [hb]; exact Bool.false_ne_true)]

/-- Last-wins characterisation of the fold for `io_type`. -/
theorem aggFold_io_type_spec (ps : List (String × String)) :
    ∀ s : AggState, (ps.foldl aggStep s).io_type =
      (((ps.filter (fun p => p.2 == "IO_TYPE")).map Prod.fst).getLast?).or s.io_type := by
  induction ps with
  | nil => intro s; simp
  | cons p ps ih =>
    intro s
    rw [List.foldl_cons, ih (aggStep s p), aggStep_io_type, List.filter_cons]
    by_cases hp : p.2 = "IO_TYPE"
    · have hb : (p.2 == "IO_TYPE") = true := beq_iff_eq.mpr hp
      rw [if_pos hb, List.map_cons, List.getLast?_cons]
      rcases hlast : ((ps.filter (fun p => p.2 == "IO_TYPE")).map Prod.fst).getLast? with _ | v
      · simp [hp, hlast]
      · simp [hp, hlast]
    · have hb : (p.2 == "IO_TYPE") = false := beq_eq_false_iff_ne.mpr hp
      rw [if_neg hp, if_neg (by rw [hb]; exact Bool.false_ne_true)]

/-- Last-wins characterisation of the fold for `vendor`. -/
theorem aggFold_vendor_spec (ps : List (String × String)) :
    ∀ s : AggState, (ps.foldl aggStep s).vendor =
      (((ps.filter (fun p => p.2 == "VENDOR_TAG")).map Prod.fst).getLast?).or s.vendor := by
  induction ps with
  | nil => intro s; simp
  | cons p ps ih =>
    intro s
    rw [List.foldl_cons, ih (aggStep s p), aggStep_vendor, List.filter_cons]
    by_cases hp : p.2 = "VENDOR_TAG"
    · have hb : (p.2 == "VENDOR_TAG") = true := beq_iff_eq.mpr hp
      rw [if_pos hb, List.map_cons, List.getLast?_cons]
      rcases hlast : ((ps.filter (fun p => p.2 == "VENDOR_TAG")).map Prod.fst).getLast? with _ | v
      · simp [hp, hlast]
      · simp [hp, hlast]
    · have hb : (p.2 == "VENDOR_TAG") = false := beq_eq_false_iff_ne.mpr hp
      rw [if_neg hp, if_neg (by rw [hb]; exact Bool.false_ne_true)]

/-- Append characterisation of the fold for `zone_tokens`. -/
theorem aggFold_zone_spec (ps : List (String × String)) :
    ∀ s : AggState, (ps.foldl aggStep s).zone_tokens =
      s.zone_tokens ++ (ps.filter (fun p => p.2 == "ZONE")).map Prod.fst := by
  induction ps with
  | nil => intro s; simp
  | cons p ps ih =>
    intro s
    rw [List.foldl_cons, ih (aggStep s p), aggStep_zone, List.filter_cons]
    by_cases hp : p.2 = "ZONE"
    · have hb : (p.2 == "ZONE") = true := beq_iff_eq.mpr hp
      rw [if_pos hp, if_pos hb, List.map_cons]
      simp
    · have hb : (p.2 == "ZONE") = false := beq_eq_false_iff_ne.mpr hp
      rw [if_neg hp, if_neg (by rw [hb]; exact Bool.false_ne_true)]

/-- C4: the structured aggregator takes the first occurrence for
`bldg`, `floor`, `equip`, `equip_id`, the last occurrence for
`subcomp`, `point_func`, `io_type`, `vendor`, space-joins all ZONE
tokens in order into `zone` (null when there are none), leaves
unmatched fields null; and the concrete example of the specification
holds. -/
theorem claim_C4_structured_aggregation :
    (∀ tokens cats : List String,
      build_structured tokens cats =
        { bldg := ((tokens.zip cats).find? (fun p => p.2 == "BLDG")).map Prod.fst
          floor := ((tokens.zip cats).find? (fun p => p.2 == "FLOOR")).map Prod.fst
          zone :=
            if ((tokens.zip cats).filter (fun p => p.2 == "ZONE")).map Prod.fst = []
            then none
            else some (String.intercalate " "
              (((tokens.zip cats).filter (fun p => p.2 == "ZONE")).map Prod.fst))
          equip := ((tokens.zip cats).find? (fun p => p.2 == "EQUIP")).map Prod.fst
          equip_id := ((tokens.zip cats).find? (fun p => p.2 == "EQUIP_ID")).map Prod.fst
          subcomp := (((tokens.zip cats).filter
            (fun p => p.2 == "SUBCOMP")).map Prod.fst).getLast?
          point_func := (((tokens.zip cats).filter
            (fun p => p.2 == "POINT_FUNC")).map Prod.fst).getLast?
          io_type := (((tokens.zip cats).filter
            (fun p => p.2 == "IO_TYPE")).map Prod.fst).getLast?
          vendor := (((tokens.zip cats).filter
            (fun p => p.2 == "VENDOR_TAG")).map Prod.fst).getLast? }) ∧
    build_structured ["BLDG1", "FL03", "RM1203E", "AHU", "03", "SAT", "AI", "CMD"]
        ["BLDG", "FLOOR", "ZONE", "EQUIP", "EQUIP_ID", "SUBCOMP", "IO_TYPE",
          "POINT_FUNC"] =
      ⟨some "BLDG1", some "FL03", some "RM1203E", some "AHU", some "03",
        some "SAT", some "CMD", some "AI", none⟩ := by
  refine ⟨?_, by decide⟩
  intro tokens cats
  simp only [build_structured, Structured.mk.injEq]
  refine ⟨?_, ?_, ?_, ?_, ?_, ?_, ?_, ?_, ?_⟩
  · simp [aggFold_bldg_spec, initAggState]
  · simp [aggFold_floor_spec, initAggState]
  · rw [aggFold_zone_spec]
    simp [initAggState]
  · simp [aggFold_equip_spec, initAggState]
  · simp [aggFold_equip_id_spec, initAggState]
  · simp [aggFold_subcomp_spec, initAggState]
  · simp [aggFold_point_func_spec, initAggState]
  · simp [aggFold_io_type_spec, initAggState]
  · simp [aggFold_vendor_spec, initAggState]

/-- C5: a token that is not blacklisted, not an equipment seed, and not
claimed by the earlier cascade steps is accepted as an EQUIP candidate
iff it passes the global thresholds and the shape gate (purely
alphabetic, fully uppercase, length 2..6, not an equipment stopword) —
independently of its numeric-succession count. -/
theorem claim_C5_equip_acceptance (st : VocabStats) (tok : String)
    (hbl : tok ∉ EQUIP_BLACKLIST) (hseed : tok ∉ SEED_EQUIP)
    (hio : is_io_type tok = false) (hv : is_vendor tok = false)
    (hpf : likely_point_func tok st = false)
    (hsc : likely_subcomponent tok st = false) :
    classifyToken st tok = Bucket.equip ↔
      (passes_global_thresholds tok st = true ∧ pyIsAlphaStr tok = true ∧
        pyIsUpperStr tok = true ∧ 2 ≤ tok.length ∧ tok.length ≤ 6 ∧
        tok ∉ EQUIP_STOPWORDS) := by
  have hcbl : EQUIP_BLACKLIST.contains tok = false := by
    simp [EQUIP_BLACKLIST]
  have hcseed : SEED_EQUIP.contains tok = false := by
    simpa using hseed
  have hcl : classifyToken st tok =
      if likely_equip tok st = true then Bucket.equip
      else Bucket.unclassified := by
    simp only [classifyToken]
    rw [if_neg (by rw [hio]; exact Bool.false_ne_true),
      if_neg (by rw [hv]; exact Bool.false_ne_true),
      if_neg (by rw [hpf]; exact Bool.false_ne_true),
      if_neg (by rw [hsc]; exact Bool.false_ne_true)]
  have hle : likely_equip tok st =
      (passes_global_thresholds tok st && pyIsAlphaStr tok &&
        pyIsUpperStr tok && (decide (2 ≤ tok.length) &&
        decide (tok.length ≤ 6)) && !EQUIP_STOPWORDS.contains tok) := by
    cases h1 : passes_global_thresholds tok st <;>
    cases h2 : pyIsAlphaStr tok <;>
    cases h3 : pyIsUpperStr tok <;>
    cases h4 : decide (2 ≤ tok.length) <;>
    cases h5 : decide (tok.length ≤ 6) <;>
    cases h6 : EQUIP_STOPWORDS.contains tok <;>
    simp [likely_equip, hcbl, hcseed, hbl, hseed, h1, h2, h3, h4, h5, h6,
      ite_self] <;> simpa using h6
  rw [hcl, hle]
  cases hb : (passes_global_thresholds tok st && pyIsAlphaStr tok &&
      pyIsUpperStr tok && (decide (2 ≤ tok.length) &&
      decide (tok.length ≤ 6)) && !EQUIP_STOPWORDS.contains tok)
  · rw [if_neg (fun hcontra => Bool.false_ne_true hcontra)]
    constructor
    · intro h
      exact absurd h (by decide)
    · rintro ⟨hp, ha, hu, hl2, hl6, hsw⟩
      have hswb : EQUIP_STOPWORDS.contains tok = false := by
        simpa using hsw
      rw [hp, ha, hu, hswb, decide_eq_true hl2, decide_eq_true hl6] at hb
      simp at hb
  · rw [if_pos rfl]
    constructor
    · intro h
      simp only [Bool.and_eq_true, Bool.not_eq_true', decide_eq_true_eq] at hb
      obtain ⟨⟨⟨⟨hp, ha⟩, hu⟩, hl2, hl6⟩, hsw⟩ := hb
      exact ⟨hp, ha, hu, hl2, hl6, by simpa using hsw⟩
    · intro hconj
      rfl

/-- Witness for C5: the token "CRAH" (not a seed, not a stopword, four
uppercase letters) with frequency 12 in two buildings and no
numeric-succession evidence is accepted as an EQUIP candidate. -/
theorem claim_C5_witness : classifyToken stC5 "CRAH" = Bucket.equip :=
  (claim_C5_equip_acceptance stC5 "CRAH" (by decide) (by decide) (by decide)
    (by decide) (by decide) (by decide)).mpr
    ⟨by decide, by decide, by decide, by decide, by decide, by decide⟩

/-- `updFreq` adds, at each key, the number of occurrences in the
update list. -/
theorem updFreq_spec (ts : List String) :
    ∀ (f : String → Nat) (x : String), updFreq f ts x = f x + ts.count x := by
  induction ts with
  | nil => intro f x; simp [updFreq]
  | cons t ts ih =>
    intro f x
    simp only [updFreq, List.foldl_cons] at *
    rw [ih (bumpAt f t) x, List.count_cons]
    simp only [bumpAt]
    by_cases hx : x = t
    · subst hx
      simp
      omega
    · have ht : (t == x) = false := beq_eq_false_iff_ne.mpr (Ne.symm hx)
      simp [hx, ht]

/-- The bigram fold adds, at each key, the number of matching adjacent
pairs. -/
theorem numidFold_spec (pairs : List (String × String)) :
    ∀ (m : String → Nat) (x : String),
      (pairs.foldl (fun m p =>
        if pyIsDigitStr p.2 then bumpAt m (pyUpper p.1) else m) m) x =
      m x + (pairs.filter
        (fun p => pyUpper p.1 == x && pyIsDigitStr p.2)).length := by
  induction pairs with
  | nil => intro m x; simp
  | cons p ps ih =>
    intro m x
    rw [List.foldl_cons, List.filter_cons]
    by_cases hd : pyIsDigitStr p.2 = true
    · rw [if_pos hd, ih]
      by_cases hx : pyUpper p.1 = x
      · rw [if_pos (by simp [hx, hd])]
        simp only [bumpAt, if_pos hx.symm, List.length_cons]
        omega
      · have hxne : ¬(x = pyUpper p.1) := fun hcontra => hx (Eq.symm hcontra)
        rw [if_neg (by simp [hx])]
        simp only [bumpAt, if_neg hxne]
    · have hd' : pyIsDigitStr p.2 = false := by
        cases h : pyIsDigitStr p.2
        · rfl
        · exact absurd h hd
      rw [if_neg hd, ih, if_neg (by simp [hd'])]

/-- Per-record effect of the statistics loop on `freq`. -/
theorem statsStep_freq (st : VocabStats) (r : String × String) (x : String) :
    (statsStep st r).freq x =
      st.freq x + ((tokenize r.1).map pyUpper).count x := by
  by_cases h : tokenize r.1 = []
  · simp [statsStep, h]
  · simp only [statsStep, if_neg h]
    exact updFreq_spec _ _ _

/-- Per-record effect of the statistics loop on `numid`. -/
theorem statsStep_numid (st : VocabStats) (r : String × String) (x : String) :
    (statsStep st r).numid x =
      st.numid x + (((tokenize r.1).zip (tokenize r.1).tail).filter
        (fun p => pyUpper p.1 == x && pyIsDigitStr p.2)).length := by
  by_cases h : tokenize r.1 = []
  · simp [statsStep, h]
  · simp only [statsStep, if_neg h, updNumid]
    exact numidFold_spec _ _ _

/-- Per-record effect of the statistics loop on `buildings`:
membership. -/
theorem statsStep_buildings_mem (st : VocabStats) (r : String × String)
    (x b : String) :
    b ∈ (statsStep st r).buildings x ↔
      b ∈ st.buildings x ∨
        (x ∈ (tokenize r.1).map pyUpper ∧ b = r.2) := by
  by_cases h : tokenize r.1 = []
  · simp [statsStep, h]
  · simp only [statsStep, if_neg h, updBuildings]
    by_cases hx : x ∈ (tokenize r.1).map pyUpper
    · rw [if_pos hx]
      by_cases hb : r.2 ∈ st.buildings x
      · rw [if_pos hb]
        constructor
        · exact fun hm => Or.inl hm
        · rintro (hm | ⟨-, rfl⟩)
          · exact hm
          · exact hb
      · rw [if_neg hb]
        rw [List.mem_append]
        constructor
        · rintro (hm | hm)
          · exact Or.inl hm
          · exact Or.inr ⟨hx, by simpa using hm⟩
        · rintro (hm | ⟨-, rfl⟩)
          · exact Or.inl hm
          · exact Or.inr (by simp)
    · rw [if_neg hx]
      simp [hx]

/-- Per-record effect of the statistics loop on `buildings`:
distinctness is preserved. -/
theorem statsStep_buildings_nodup (st : VocabStats) (r : String × String)
    (x : String) (h : (st.buildings x).Nodup) :
    ((statsStep st r).buildings x).Nodup := by
  by_cases ht : tokenize r.1 = []
  · simpa [statsStep, ht] using h
  · simp only [statsStep, if_neg ht, updBuildings]
    by_cases hx : x ∈ (tokenize r.1).map pyUpper
    · rw [if_pos hx]
      by_cases hb : r.2 ∈ st.buildings x
      · rwa [if_pos hb]
      · rw [if_neg hb]
        simp [List.nodup_append, h, hb]
    · rwa [if_neg hx]

/-- Denotational characterisation of the whole statistics fold,
generalised over the starting state. -/
theorem collectStats_go (corpus : List (String × String)) :
    ∀ (st : VocabStats) (tok : String),
      ((corpus.foldl statsStep st).freq tok =
        st.freq tok +
          (corpus.map (fun r => ((tokenize r.1).map pyUpper).count tok)).sum) ∧
      (∀ b, b ∈ (corpus.foldl statsStep st).buildings tok ↔
        b ∈ st.buildings tok ∨
          ∃ r ∈ corpus, tok ∈ (tokenize r.1).map pyUpper ∧ b = r.2) ∧
      ((st.buildings tok).Nodup →
        ((corpus.foldl statsStep st).buildings tok).Nodup) ∧
      ((corpus.foldl statsStep st).numid tok =
        st.numid tok + (corpus.map (fun r =>
          (((tokenize r.1).zip (tokenize r.1).tail).filter
            (fun p => pyUpper p.1 == tok && pyIsDigitStr p.2)).length)).sum) := by
  induction corpus with
  | nil =>
    intro st tok
    refine ⟨by simp, fun b => by simp, fun h => h, by simp⟩
  | cons r corpus ih =>
    intro st tok
    rw [List.foldl_cons]
    obtain ⟨ihf, ihb, ihn, ihq⟩ := ih (statsStep st r) tok
    refine ⟨?_, ?_, ?_, ?_⟩
    · rw [ihf, statsStep_freq, List.map_cons, List.sum_cons]
      omega
    · intro b
      rw [ihb b, statsStep_buildings_mem]
      simp only [List.mem_cons]
      constructor
      · rintro ((hm | ⟨hx, rfl⟩) | ⟨r2, hr2, hx2, rfl⟩)
        · exact Or.inl hm
        · exact Or.inr ⟨r, Or.inl rfl, hx, rfl⟩
        · exact Or.inr ⟨r2, Or.inr hr2, hx2, rfl⟩
      · rintro (hm | ⟨r2, hr2 | hr2, hx2, rfl⟩)
        · exact Or.inl (Or.inl hm)
        · subst hr2
          exact Or.inl (Or.inr ⟨hx2, rfl⟩)
        · exact Or.inr ⟨r2, hr2, hx2, rfl⟩
      
    · intro h
      exact ihn (statsStep_buildings_nodup st r tok h)
    · rw [ihq, statsStep_numid, List.map_cons, List.sum_cons]
      omega

/-- C6: the statistics collector computes, per case-folded token, the
total occurrence count across all records, the set of distinct
building ids of records containing the token, and the count of
adjacent pairs (over the original-case token sequences) whose second
member is all digits, keyed by the upper-cased first member. -/
theorem claim_C6_corpus_statistics (corpus : List (String × String))
    (tok : String) :
    ((collectStats corpus).freq tok =
      (corpus.map (fun r => ((tokenize r.1).map pyUpper).count tok)).sum) ∧
    (∀ b, b ∈ (collectStats corpus).buildings tok ↔
      ∃ r ∈ corpus, tok ∈ (tokenize r.1).map pyUpper ∧ b = r.2) ∧
    ((collectStats corpus).buildings tok).Nodup ∧
    ((collectStats corpus).numid tok =
      (corpus.map (fun r =>
        (((tokenize r.1).zip (tokenize r.1).tail).filter
          (fun p => pyUpper p.1 == tok && pyIsDigitStr p.2)).length)).sum) := by
  obtain ⟨hf, hb, hn, hq⟩ := collectStats_go corpus initStats tok
  refine ⟨by simpa [initStats] using hf, fun b => ?_,
    hn (by simp [initStats]), by simpa [initStats] using hq⟩
  rw [collectStats, hb b]
  simp [initStats]

/-- Membership in an ascending insertion. -/
theorem mem_insertAsc (a x : String) :
    ∀ l : List String, x ∈ insertAsc a l ↔ x = a ∨ x ∈ l := by
  intro l
  induction l with
  | nil => simp [insertAsc]
  | cons b rest ih =>
    simp only [insertAsc]
    by_cases h : a < b
    · rw [if_pos h]
      simp [List.mem_cons]
    · rw [if_neg h]
      simp only [List.mem_cons, ih]
      tauto

/-- Membership through the sorting fold of `pySorted`. -/
theorem mem_pySorted_go (l : List String) :
    ∀ (acc : List String) (x : String),
      x ∈ l.foldl (fun acc a => insertAsc a acc) acc ↔ x ∈ acc ∨ x ∈ l := by
  induction l with
  | nil => intro acc x; simp
  | cons a l ih =>
    intro acc x
    rw [List.foldl_cons, ih (insertAsc a acc) x, mem_insertAsc]
    simp only [List.mem_cons]
    tauto

/-- `pySorted` is a permutation membership-wise. -/
theorem mem_pySorted (l : List String) (x : String) :
    x ∈ pySorted l ↔ x ∈ l := by
  rw [pySorted, mem_pySorted_go]
  simp

/-- Membership in a descending keyed insertion. -/
theorem mem_insertByKeyDesc {α : Type} (key : α → Nat) (a x : α) :
    ∀ l : List α, x ∈ insertByKeyDesc key a l ↔ x = a ∨ x ∈ l := by
  intro l
  induction l with
  | nil => simp [insertByKeyDesc]
  | cons b rest ih =>
    simp only [insertByKeyDesc]
    by_cases h : key b < key a
    · rw [if_pos h]
      simp [List.mem_cons]
    · rw [if_neg h]
      simp only [List.mem_cons, ih]
      tauto

/-- Membership through the sorting fold of `sortByKeyDesc`. -/
theorem mem_sortByKeyDesc_go {α : Type} (key : α → Nat) (l : List α) :
    ∀ (acc : List α) (x : α),
      x ∈ l.foldl (fun acc a => insertByKeyDesc key a acc) acc ↔
        x ∈ acc ∨ x ∈ l := by
  induction l with
  | nil => intro acc x; simp
  | cons a l ih =>
    intro acc x
    rw [List.foldl_cons, ih (insertByKeyDesc key a acc) x, mem_insertByKeyDesc]
    simp only [List.mem_cons]
    tauto

/-- `sortByKeyDesc` is a permutation membership-wise. -/
theorem mem_sortByKeyDesc {α : Type} (key : α → Nat) (l : List α) (x : α) :
    x ∈ sortByKeyDesc key l ↔ x ∈ l := by
  rw [sortByKeyDesc, mem_sortByKeyDesc_go]
  simp

/-- A token of the io vocabulary classifies as io. -/
theorem mem_io_vocab_classify {corpus : List (String × String)} {t : String}
    (h : (extract_vocab corpus).io_type_vocab.contains t = true) :
    classifyToken (collectStats corpus) t = Bucket.io := by
  have hm : t ∈ (extract_vocab corpus).io_type_vocab := by simpa using h
  simp only [extract_vocab] at hm
  rw [mem_pySorted, List.mem_filter] at hm
  exact beq_iff_eq.mp hm.2

/-- A token of the vendor vocabulary classifies as vendor. -/
theorem mem_vendor_vocab_classify {corpus : List (String × String)}
    {t : String}
    (h : (extract_vocab corpus).vendor_vocab.contains t = true) :
    classifyToken (collectStats corpus) t = Bucket.vendor := by
  have hm : t ∈ (extract_vocab corpus).vendor_vocab := by simpa using h
  simp only [extract_vocab] at hm
  rw [mem_pySorted, List.mem_filter] at hm
  exact beq_iff_eq.mp hm.2

/-- A token of the point-function vocabulary classifies as a
point-function candidate. -/
theorem mem_point_func_vocab_classify {corpus : List (String × String)}
    {t : String}
    (h : (extract_vocab corpus).point_func_vocab.contains t = true) :
    classifyToken (collectStats corpus) t = Bucket.pointfunc := by
  have hm : t ∈ (extract_vocab corpus).point_func_vocab := by simpa using h
  simp only [extract_vocab] at hm
  rw [mem_pySorted, List.mem_filter] at hm
  have hm2 := hm.1
  rw [List.mem_filter] at hm2
  exact beq_iff_eq.mp hm2.2

/-- A token of the subcomponent vocabulary classifies as a
subcomponent candidate. -/
theorem mem_subcomp_vocab_classify {corpus : List (String × String)}
    {t : String}
    (h : (extract_vocab corpus).subcomp_vocab.contains t = true) :
    classifyToken (collectStats corpus) t = Bucket.subcomp := by
  have hm : t ∈ (extract_vocab corpus).subcomp_vocab := by simpa using h
  simp only [extract_vocab] at hm
  rw [mem_pySorted, List.mem_filter] at hm
  have hm2 := hm.1
  rw [List.mem_filter] at hm2
  exact beq_iff_eq.mp hm2.2

/-- A token of the equipment vocabulary classifies as an equipment
candidate. -/
theorem mem_equip_vocab_classify {corpus : List (String × String)}
    {t : String}
    (h : (extract_vocab corpus).equip_vocab.contains t = true) :
    classifyToken (collectStats corpus) t = Bucket.equip := by
  have hm : t ∈ (extract_vocab corpus).equip_vocab := by simpa using h
  simp only [extract_vocab] at hm
  rw [mem_pySorted] at hm
  have hm2 := List.mem_of_mem_take hm
  rw [mem_sortByKeyDesc, List.mem_filter] at hm2
  exact beq_iff_eq.mp hm2.2

/-- Tokens whose classification differs from a vocabulary's bucket are
absent from that vocabulary (contrapositive helper). -/
theorem not_mem_of_classify_ne {A : List String} {t : String}
    {bkt : Bucket} {corpus : List (String × String)}
    (himp : A.contains t = true →
      classifyToken (collectStats corpus) t = bkt)
    (hne : ¬ classifyToken (collectStats corpus) t = bkt) : t ∉ A :=
  fun hm => hne (himp (by simpa using hm))

/-- C9: no token appears in more than one of the five output
vocabularies — the candidate-collection chain puts every distinct
token in at most one bucket, and each vocabulary only draws from its
own bucket. -/
theorem claim_C9_vocab_disjointness (corpus : List (String × String))
    (t : String) :
    [(extract_vocab corpus).equip_vocab, (extract_vocab corpus).subcomp_vocab,
      (extract_vocab corpus).point_func_vocab,
      (extract_vocab corpus).io_type_vocab,
      (extract_vocab corpus).vendor_vocab].countP
        (fun l => l.contains t) ≤ 1 := by
  cases hcl : classifyToken (collectStats corpus) t
  case io =>
    have f1 : t ∉ (extract_vocab corpus).equip_vocab :=
      not_mem_of_classify_ne mem_equip_vocab_classify (by simp [hcl])
    have f2 : t ∉ (extract_vocab corpus).subcomp_vocab :=
      not_mem_of_classify_ne mem_subcomp_vocab_classify (by simp [hcl])
    have f3 : t ∉ (extract_vocab corpus).point_func_vocab :=
      not_mem_of_classify_ne mem_point_func_vocab_classify (by simp [hcl])
    have f5 : t ∉ (extract_vocab corpus).vendor_vocab :=
      not_mem_of_classify_ne mem_vendor_vocab_classify (by simp [hcl])
    by_cases hx : t ∈ (extract_vocab corpus).io_type_vocab <;>
      simp [List.countP_cons, List.countP_nil, f1, f2, f3, f5, hx]
  case vendor =>
    have f1 : t ∉ (extract_vocab corpus).equip_vocab :=
      not_mem_of_classify_ne mem_equip_vocab_classify (by simp [hcl])
    have f2 : t ∉ (extract_vocab corpus).subcomp_vocab :=
      not_mem_of_classify_ne mem_subcomp_vocab_classify (by simp [hcl])
    have f3 : t ∉ (extract_vocab corpus).point_func_vocab :=
      not_mem_of_classify_ne mem_point_func_vocab_classify (by simp [hcl])
    have f4 : t ∉ (extract_vocab corpus).io_type_vocab :=
      not_mem_of_classify_ne mem_io_vocab_classify (by simp [hcl])
    by_cases hx : t ∈ (extract_vocab corpus).vendor_vocab <;>
      simp [List.countP_cons, List.countP_nil, f1, f2, f3, f4, hx]
  case pointfunc =>
    have f1 : t ∉ (extract_vocab corpus).equip_vocab :=
      not_mem_of_classify_ne mem_equip_vocab_classify (by simp [hcl])
    have f2 : t ∉ (extract_vocab corpus).subcomp_vocab :=
      not_mem_of_classify_ne mem_subcomp_vocab_classify (by simp [hcl])
    have f4 : t ∉ (extract_vocab corpus).io_type_vocab :=
      not_mem_of_classify_ne mem_io_vocab_classify (by simp [hcl])
    have f5 : t ∉ (extract_vocab corpus).vendor_vocab :=
      not_mem_of_classify_ne mem_vendor_vocab_classify (by simp [hcl])
    by_cases hx : t ∈ (extract_vocab corpus).point_func_vocab <;>
      simp [List.countP_cons, List.countP_nil, f1, f2, f4, f5, hx]
  case subcomp =>
    have f1 : t ∉ (extract_vocab corpus).equip_vocab :=
      not_mem_of_classify_ne mem_equip_vocab_classify (by simp [hcl])
    have f3 : t ∉ (extract_vocab corpus).point_func_vocab :=
      not_mem_of_classify_ne mem_point_func_vocab_classify (by simp [hcl])
    have f4 : t ∉ (extract_vocab corpus).io_type_vocab :=
      not_mem_of_classify_ne mem_io_vocab_classify (by simp [hcl])
    have f5 : t ∉ (extract_vocab corpus).vendor_vocab :=
      not_mem_of_classify_ne mem_vendor_vocab_classify (by simp [hcl])
    by_cases hx : t ∈ (extract_vocab corpus).subcomp_vocab <;>
      simp [List.countP_cons, List.countP_nil, f1, f3, f4, f5, hx]
  case equip =>
    have f2 : t ∉ (extract_vocab corpus).subcomp_vocab :=
      not_mem_of_classify_ne mem_subcomp_vocab_classify (by simp [hcl])
    have f3 : t ∉ (extract_vocab corpus).point_func_vocab :=
      not_mem_of_classify_ne mem_point_func_vocab_classify (by simp [hcl])
    have f4 : t ∉ (extract_vocab corpus).io_type_vocab :=
      not_mem_of_classify_ne mem_io_vocab_classify (by simp [hcl])
    have f5 : t ∉ (extract_vocab corpus).vendor_vocab :=
      not_mem_of_classify_ne mem_vendor_vocab_classify (by simp [hcl])
    by_cases hx : t ∈ (extract_vocab corpus).equip_vocab <;>
      simp [List.countP_cons, List.countP_nil, f2, f3, f4, f5, hx]
  case unclassified =>
    have f1 : t ∉ (extract_vocab corpus).equip_vocab :=
      not_mem_of_classify_ne mem_equip_vocab_classify (by simp [hcl])
    have f2 : t ∉ (extract_vocab corpus).subcomp_vocab :=
      not_mem_of_classify_ne mem_subcomp_vocab_classify (by simp [hcl])
    have f3 : t ∉ (extract_vocab corpus).point_func_vocab :=
      not_mem_of_classify_ne mem_point_func_vocab_classify (by simp [hcl])
    have f4 : t ∉ (extract_vocab corpus).io_type_vocab :=
      not_mem_of_classify_ne mem_io_vocab_classify (by simp [hcl])
    have f5 : t ∉ (extract_vocab corpus).vendor_vocab :=
      not_mem_of_classify_ne mem_vendor_vocab_classify (by simp [hcl])
    simp [List.countP_cons, List.countP_nil, f1, f2, f3, f4, f5]

end BMS
